import Mathlib

/-!
Shallow embedding of the cleaning and merging core of the DubHacksProject
backend (src/backend/app/cleaning.py and src/backend/app/merge.py), together
with theorems settling the specification claims about it.

Cells of a raw table are either null or text, modelled as `Option String`.
Library string routines from Python and pandas (strip, split, lower,
to_datetime, to_numeric) are modelled by executable Lean functions on
`List Char` and `String`; each model carries a doc comment naming the
library routine it stands for.
-/

namespace DubHacks

/-- A cell of a raw (object-dtype) table: null or a text value. -/
abbrev Cell := Option String

/-- Model of the Python whitespace class used by str.strip and str.split:
space, tab, carriage return, newline. -/
def ws (c : Char) : Bool := c.isWhitespace

/-- Model of Python str.strip on the character list of a string: drop
whitespace from the left, then from the right. -/
def stripChars (cs : List Char) : List Char :=
  (((cs.dropWhile ws).reverse.dropWhile ws)).reverse

/-- Model of Python str.strip. -/
def py_strip (s : String) : String := String.mk (stripChars s.data)

/-- Split a character list at every whitespace character, keeping empty
fields, as the underlying pass of Python str.split. The accumulator is
never empty because it starts as a single empty field. -/
def fields (cs : List Char) : List (List Char) :=
  cs.foldr
    (fun c acc =>
      if ws c then [] :: acc
      else
        match acc with
        | [] => [[c]]
        | w :: rest => (c :: w) :: rest)
    [[]]

/-- Model of Python str.split with no argument: the maximal nonempty
whitespace-free words of the list. -/
def wordsOf (cs : List Char) : List (List Char) :=
  (fields cs).filter (fun w => ¬ w.isEmpty)

/-- Join a list of words with single spaces, as Python " ".join. -/
def joinSpace : List (List Char) → List Char
  | [] => []
  | [w] => w
  | w :: x :: rest => w ++ ' ' :: joinSpace (x :: rest)

/-- Character-list core of strip plus whitespace-run collapse. -/
def collapseChars (cs : List Char) : List Char :=
  joinSpace (wordsOf (stripChars cs))

/-- Model of Python s.strip() followed by " ".join(s.split()) (also of
pandas .str.strip().str.replace of a whitespace run by one space): trim the
ends and collapse every internal whitespace run to a single space. -/
def collapse_ws (s : String) : String := String.mk (collapseChars s.data)

/-- Model of Python str.lower restricted to ASCII letters. -/
def py_lower (s : String) : String := String.mk (s.data.map Char.toLower)

/-- Placeholder normalization applied by run_cleaning_pipeline (cleaning.py
line 195): df.replace of the regular expressions (?i)^(nan)$ and
(?i)^(none)$ by NaN. The pattern is anchored at both ends with no
whitespace allowance, so a cell is nulled exactly when its full contents,
lowercased, are "nan" or "none". -/
def replace_placeholder_cell (c : Cell) : Cell :=
  match c with
  | none => none
  | some s => if py_lower s = "nan" || py_lower s = "none" then none else some s

/-- Placeholder normalization over a whole row. -/
def replace_placeholder_row (row : List Cell) : List Cell :=
  row.map replace_placeholder_cell

/-- One cell of normalize_categoricals (cleaning.py lines 176-183):
astype(str) renders a null cell as the string "nan"; then .str.strip, the
replacement of each internal whitespace run by one space, and optionally
.str.lower. Every output cell is non-null text. -/
def normalize_categoricals_cell (lowercase : Bool) (c : Cell) : Cell :=
  let s := match c with
    | some s => s
    | none => "nan"
  let s := collapse_ws s
  some (if lowercase then py_lower s else s)

/-- normalize_categoricals on one object-dtype column. -/
def normalize_categoricals (lowercase : Bool) (col : List Cell) : List Cell :=
  col.map (normalize_categoricals_cell lowercase)

/-- Per-name normalization inside standardize_column_names (cleaning.py
lines 64-70): strip, collapse internal whitespace runs, optionally
lowercase, and replace an empty result by "unnamed". -/
def normalize_name (lowercase : Bool) (c : String) : String :=
  let base := collapse_ws c
  let base := if lowercase then py_lower base else base
  if base = "" then "unnamed" else base

/-- Recursive worker of standardize_column_names: `seen` maps an already
produced base name to the number of times it has repeated so far, as the
Python dict of the source. A repeated base name gets the suffix _N with N
its occurrence count; the suffixed name itself is not recorded in `seen`,
exactly as in the source. -/
def standardize_go (lowercase : Bool) (seen : List (String × Nat)) :
    List String → List String
  | [] => []
  | c :: rest =>
    let base := normalize_name lowercase c
    match seen.lookup base with
    | some k =>
      let seen2 := seen.map (fun p => if p.1 = base then (p.1, k + 1) else p)
      (base ++ "_" ++ toString (k + 1)) :: standardize_go lowercase seen2 rest
    | none =>
      base :: standardize_go lowercase ((base, 0) :: seen) rest

/-- standardize_column_names from cleaning.py (lines 61-78), on the list of
column names. -/
def standardize_column_names (lowercase : Bool) (cols : List String) :
    List String :=
  standardize_go lowercase [] cols

/-- Command and comment patterns of the noise row heuristic
(run_cleaning_pipeline, cleaning.py line 198). Each source pattern is a
regular expression anchored at the start, modelled as a case-insensitive
startsWith test. -/
def noise_patterns : List String := ["#", "pip ", "uvicorn ", "cd ", "python ", "py -"]

/-- Whether one non-null cell value matches one of the noise patterns,
case-insensitively and anchored at the start of the value. -/
def matches_noise_pattern (s : String) : Bool :=
  noise_patterns.any (fun p => p.data.isPrefixOf (py_lower s).data)

/-- The _is_noise_row predicate of run_cleaning_pipeline (cleaning.py lines
199-211): a row is noise when all its cells are null, when its non-null
cells are all one identical string longer than 25 characters, or when more
than 40 percent of its cells are null and some non-null cell matches a
noise pattern. -/
def is_noise_row (row : List Cell) : Bool :=
  let non_null := row.filterMap id
  match non_null with
  | [] => true
  | v :: rest =>
    if rest.all (fun w => w == v) && decide (25 < v.length) then true
    else if 5 * row.countP Option.isNone > 2 * row.length then
      (v :: rest).any matches_noise_pattern
    else false

/-- Noise mask of run_cleaning_pipeline (lines 213-217): the per-row noise
flags with position 0 forced to False, the always-keep-first-row guard. -/
def noise_mask (rows : List (List Cell)) : List Bool :=
  (rows.map is_noise_row).set 0 false

/-- Noise row stage of run_cleaning_pipeline (lines 213-223): when the
table has at most 1000 rows, remove the masked rows and count them as
noise_rows_removed; otherwise leave the table alone and report zero. -/
def noise_row_stage (rows : List (List Cell)) : List (List Cell) × Nat :=
  if rows.length ≤ 1000 then
    (((rows.zip (noise_mask rows)).filter (fun p => !p.2)).map (fun p => p.1),
      (noise_mask rows).countP id)
  else (rows, 0)

/-- Heuristic prefix of run_cleaning_pipeline (cleaning.py lines 193-223):
placeholder normalization over every cell of every row, followed by the
noise row stage, in that order. -/
def placeholder_then_noise (rows : List (List Cell)) : List (List Cell) × Nat :=
  noise_row_stage (rows.map replace_placeholder_row)

/-- A parsed timestamp, as produced by the date parser model. -/
structure DateTime where
  year : Nat
  month : Nat
  day : Nat
  hour : Nat
  minute : Nat
  second : Nat
deriving DecidableEq, Repr

/-- Split a character list at every occurrence of a separator character,
keeping empty fields, as Python str.split with an explicit single-character
separator. -/
def splitOnChar (sep : Char) (cs : List Char) : List (List Char) :=
  cs.foldr
    (fun c acc =>
      if c = sep then [] :: acc
      else
        match acc with
        | [] => [[c]]
        | w :: rest => (c :: w) :: rest)
    [[]]

/-- Digits of a field read as a natural number, the reading Python int does
of an all-digit field; fails on an empty or non-digit field. -/
def digitsToNat (cs : List Char) : Option Nat :=
  if cs ≠ [] ∧ cs.all Char.isDigit then
    some (cs.foldl (fun acc c => 10 * acc + (c.toNat - 48)) 0)
  else none

/-- Modelled from the library routine pandas.to_datetime with errors set to
coerce, restricted to ISO 8601 text, which is the shape the claims
exercise: YYYY-MM-DD, optionally followed by THH:MM:SS. Any other text
fails to parse and becomes a null (NaT). -/
def to_datetime (s : String) : Option DateTime :=
  let parseN : Nat → List Char → Option Nat := fun k t =>
    if t.length = k then digitsToNat t else none
  let parseDate : List Char → Option (Nat × Nat × Nat) := fun t =>
    match splitOnChar '-' t with
    | [y, m, d] =>
      match parseN 4 y, parseN 2 m, parseN 2 d with
      | some yn, some mn, some dn =>
        if 1 ≤ mn ∧ mn ≤ 12 ∧ 1 ≤ dn ∧ dn ≤ 31 then some (yn, mn, dn) else none
      | _, _, _ => none
    | _ => none
  let parseTime : List Char → Option (Nat × Nat × Nat) := fun t =>
    match splitOnChar ':' t with
    | [h, mi, se] =>
      match parseN 2 h, parseN 2 mi, parseN 2 se with
      | some hn, some mn, some sn =>
        if hn ≤ 23 ∧ mn ≤ 59 ∧ sn ≤ 59 then some (hn, mn, sn) else none
      | _, _, _ => none
    | _ => none
  match splitOnChar 'T' s.data with
  | [d] => (parseDate d).map (fun p => ⟨p.1, p.2.1, p.2.2, 0, 0, 0⟩)
  | [d, t] =>
    match parseDate d, parseTime t with
    | some p, some q => some ⟨p.1, p.2.1, p.2.2, q.1, q.2.1, q.2.2⟩
    | _, _ => none
  | _ => none

/-- Whether a parsed timestamp has time of day exactly midnight, the
comparison against the epoch time of day in cleaning.py line 102. -/
def is_midnight (dt : DateTime) : Bool :=
  dt.hour == 0 && dt.minute == 0 && dt.second == 0

/-- Zero padding to two digits, as in strftime. -/
def pad2 (n : Nat) : String := if n < 10 then "0" ++ toString n else toString n

/-- Zero padding to four digits, as in strftime. -/
def pad4 (n : Nat) : String :=
  if n < 10 then "000" ++ toString n
  else if n < 100 then "00" ++ toString n
  else if n < 1000 then "0" ++ toString n
  else toString n

/-- The str form of a datetime.date value, used by the date-only branch of
infer_and_cast_dtypes (cleaning.py line 103). -/
def date_str (dt : DateTime) : String :=
  pad4 dt.year ++ "-" ++ pad2 dt.month ++ "-" ++ pad2 dt.day

/-- The strftime format of cleaning.py line 105. -/
def timestamp_str (dt : DateTime) : String :=
  date_str dt ++ "T" ++ pad2 dt.hour ++ ":" ++ pad2 dt.minute ++ ":" ++ pad2 dt.second

/-- Modelled from the library routine pandas.to_numeric with errors set to
coerce: an optional minus sign, integer digits, and an optional fractional
part; anything else fails to convert and becomes null. -/
def to_numeric (s : String) : Option Rat :=
  let core : List Char → Option Rat := fun t =>
    match splitOnChar '.' t with
    | [a] => (digitsToNat a).map (fun n => (n : Rat))
    | [a, b] =>
      match digitsToNat a, digitsToNat b with
      | some n, some f => some ((n : Rat) + mkRat (Int.ofNat f) (10 ^ b.length))
      | _, _ => none
    | _ => none
  match s.data with
  | '-' :: rest => (core rest).map (fun q => -q)
  | _ => core s.data

/-- Result of type inference on one object-dtype column: the inferred
semantic type tag carrying the rewritten values. -/
inductive InferredColumn where
  | date (vals : List (Option String))
  | numeric (vals : List (Option Rat))
  | categorical (vals : List Cell)
deriving DecidableEq, Repr

/-- Entry recorded in dtype_map for an inferred column. -/
def InferredColumn.dtypeTag : InferredColumn → String
  | .date _ => "date"
  | .numeric _ => "numeric"
  | .categorical _ => "categorical"

/-- Date attempt heuristic of infer_and_cast_dtypes (cleaning.py lines
86-97) for an object-dtype column: the column is attempted as a date when
it is forced through cfg.date_cols, or when the sample of the first up to
200 non-null values is nonempty and at least 60 percent of it parses as a
date. -/
def should_attempt_date (forced_date : Bool) (col : List Cell) : Bool :=
  if forced_date then true
  else
    let sample := (col.filterMap id).take 200
    !sample.isEmpty &&
      decide (3 * sample.length ≤
        5 * sample.countP (fun s => (to_datetime s).isSome))

/-- Numeric and categorical fallback of infer_and_cast_dtypes (cleaning.py
lines 109-118) for an object-dtype column: convert every cell with the
permissive numeric parser; the column becomes numeric when strictly more
than 90 percent of all its cells (nulls counting as failed conversions)
convert, failed conversions becoming null; otherwise it stays
categorical. -/
def numeric_or_categorical (col : List Cell) : InferredColumn :=
  let conv := col.map (fun c => c.bind to_numeric)
  if 9 * col.length < 10 * conv.countP Option.isSome then .numeric conv
  else .categorical col

/-- Per-column body of infer_and_cast_dtypes (cleaning.py lines 84-118) for
an object-dtype column; a column whose storage is already numeric takes the
is_numeric_dtype branch of the source instead and is not modelled here.
Returns the rewritten column and whether the column name was appended to
date_standardized. On the date branch, the all-midnight test compares every
position of the parsed column against midnight, so a null (NaT) position
makes it fail; NaT renders as the text NaT under astype(str) on the
date-only branch and as null under strftime on the timestamp branch. -/
def infer_and_cast_column (forced_date : Bool) (col : List Cell) :
    InferredColumn × Bool :=
  if should_attempt_date forced_date col then
    let parsed := col.map (fun c => c.bind to_datetime)
    if parsed.any Option.isSome then
      if parsed.all (fun o => (o.map is_midnight).getD false) then
        (.date (parsed.map (fun o =>
          some (match o with
            | some dt => date_str dt
            | none => "NaT"))), true)
      else
        (.date (parsed.map (fun o => o.map timestamp_str)), true)
    else (numeric_or_categorical col, false)
  else (numeric_or_categorical col, false)

/-- A data frame for the merge module: a header of column names and rows of
cells positionally aligned with the header. -/
structure DataFrame where
  header : List String
  rows : List (List Cell)
deriving DecidableEq, Repr

/-- Well-formedness of a frame: every row has one cell per header column. -/
def DataFrame.WF (df : DataFrame) : Prop :=
  ∀ r ∈ df.rows, r.length = df.header.length

/-- Set difference of column names, as the Python set differences of
merge.py lines 49-50; the iteration order of the Python set is modelled as
first-appearance order. -/
def col_diff (xs ys : List String) : List String :=
  xs.filter (fun c => !ys.contains c)

/-- In-place addition of missing columns (merge.py lines 63-67): each named
column is appended to the frame filled with nulls. -/
def add_missing_columns (df : DataFrame) (cols : List String) : DataFrame :=
  { header := df.header ++ cols
    rows := df.rows.map (fun r => r ++ List.replicate cols.length none) }

/-- Index of the first occurrence of a column name in a header, the
label-to-position lookup of the frame model. -/
def colIndex (hdr : List String) (c : String) : Option Nat :=
  match hdr with
  | [] => none
  | h :: t => if h == c then some 0 else (colIndex t c).map (· + 1)

/-- Cell of a frame at a row index and a named column: positional lookup of
the first header occurrence of the name, null when the name is absent. -/
def DataFrame.cell (df : DataFrame) (i : Nat) (c : String) : Cell :=
  match colIndex df.header c with
  | some k => (df.rows.getD i []).getD k none
  | none => none

/-- One row after DataFrame.reindex onto the target column list (merge.py
lines 70-72): each target column takes the cell at its position in the
source header, or null when absent. -/
def reindex_row (hdr target : List String) (row : List Cell) : List Cell :=
  target.map (fun c =>
    match colIndex hdr c with
    | some i => row.getD i none
    | none => none)

/-- append_below_merge (merge.py lines 30-88): add the columns missing from
each side in place, reindex both frames onto the combined column order, and
stack the rows. Returns the merged frame together with the post-call state
of the two input frames, which the source mutates through the in-place
column additions of lines 63-67. -/
def append_below_merge (existing_df new_df : DataFrame) :
    DataFrame × DataFrame × DataFrame :=
  let missing_in_new := col_diff existing_df.header new_df.header
  let missing_in_existing := col_diff new_df.header existing_df.header
  let new2 := add_missing_columns new_df missing_in_new
  let existing2 := add_missing_columns existing_df missing_in_existing
  let all_columns := existing2.header ++ col_diff new2.header existing2.header
  let merged : DataFrame :=
    { header := all_columns
      rows := existing2.rows.map (reindex_row existing2.header all_columns) ++
        new2.rows.map (reindex_row new2.header all_columns) }
  (merged, existing2, new2)

/-- Join kinds accepted by pandas merge. -/
def valid_join_types : List String := ["inner", "left", "right", "outer"]

/-- Pairings contributed by one left row of a single-key pandas merge: the
matching right row indices, or the row alone under left and outer joins
when nothing matches. Key cells compare by equality, null matching null as
pandas merge keys do. -/
def merge_pair_entry (kR : List Cell) (join_type : String) (p : Nat × Cell) :
    List (Option Nat × Option Nat) :=
  let js := kR.enum.filter (fun q => q.2 == p.2)
  if js.isEmpty then
    if join_type == "left" || join_type == "outer" then [(some p.1, none)] else []
  else js.map (fun q => (some p.1, some q.1))

/-- Row pairings of a single-key pandas merge: every left row in order with
its matching right rows, an unmatched left row surviving alone under left
and outer joins, followed by the unmatched right rows under right and
outer joins. -/
def merge_pairs (kL kR : List Cell) (join_type : String) :
    List (Option Nat × Option Nat) :=
  kL.enum.flatMap (merge_pair_entry kR join_type) ++
    (if join_type == "right" || join_type == "outer" then
      (kR.enum.filter (fun q => kL.all (fun v => !(v == q.2)))).map
        (fun q => ((none : Option Nat), some q.1))
    else [])

/-- The values of one named column of a frame. -/
def column_values (df : DataFrame) (c : String) : List Cell :=
  match colIndex df.header c with
  | some i => df.rows.map (fun r => r.getD i none)
  | none => []

/-- One output row of the single-key merge for a pairing of row indices:
the cells of the left row (or nulls, the key cell coming from the right
row) followed by the non-key cells of the right row (or nulls). -/
def merged_row (L R : DataFrame) (key : String) (kR : List Cell)
    (p : Option Nat × Option Nat) : List Cell :=
  let rIdx := (colIndex R.header key).getD 0
  let leftPart := match p.1 with
    | some i => L.rows.getD i []
    | none =>
      L.header.map (fun c =>
        if c == key then (match p.2 with | some j => kR.getD j none | none => none)
        else none)
  let rightPart := match p.2 with
    | some j => (R.rows.getD j []).eraseIdx rIdx
    | none => List.replicate (R.header.length - 1) none
  leftPart ++ rightPart

/-- Single-key pandas merge of two frames with suffixes ("", "_new"): the
left columns keep their names, the right key column is dropped, and a
right column whose name collides with a left column gains the suffix
_new. -/
def pd_merge (L R : DataFrame) (key : String) (join_type : String) : DataFrame :=
  let rIdx := (colIndex R.header key).getD 0
  let kL := column_values L key
  let kR := column_values R key
  let overlap := R.header.filter (fun c => L.header.contains c && !(c == key))
  let rightHeader := (R.header.eraseIdx rIdx).map (fun c =>
    if overlap.contains c then c ++ "_new" else c)
  { header := L.header ++ rightHeader
    rows := (merge_pairs kL kR join_type).map (merged_row L R key kR) }

/-- merge_on_column_join (merge.py lines 91-156): validate the key column
on both sides, rename the conflicting columns of the new frame with the
leading string new_ when requested, and join on the key with pandas merge
semantics; an invalid join type is the wrapped pandas failure. Errors are
MergeError messages. The body never assigns into either input frame, so
the inputs are returned unchanged as their post-call state. -/
def merge_on_column_join (existing_df new_df : DataFrame) (merge_column : String)
    (join_type : String) (prefix_conflicting : Bool) :
    Except String DataFrame × DataFrame × DataFrame :=
  let result : Except String DataFrame :=
    if !existing_df.header.contains merge_column then
      .error ("Merge column " ++ merge_column ++ " not found in existing dataset")
    else if !new_df.header.contains merge_column then
      .error ("Merge column " ++ merge_column ++ " not found in new dataset")
    else if !valid_join_types.contains join_type then
      .error ("Failed to merge on column " ++ merge_column)
    else
      let conflicting := (new_df.header.filter (fun c =>
        existing_df.header.contains c)).filter (fun c => !(c == merge_column))
      let new_renamed :=
        if prefix_conflicting && !conflicting.isEmpty then
          { new_df with header := new_df.header.map (fun c =>
              if conflicting.contains c then "new_" ++ c else c) }
        else new_df
      .ok (pd_merge existing_df new_renamed merge_column join_type)
  (result, existing_df, new_df)

/-- Strategy names accepted by perform_merge_operation. -/
def known_strategies : List String := ["append_below", "merge_on_column", "keep_separate"]

/-- perform_merge_operation (merge.py lines 159-205). The existing table is
read from the store by dataset id in the source; that load is modelled by
passing the loaded frame directly, and store errors are out of scope.
Dispatches on the strategy name; a missing or empty merge column and an
unknown strategy fail with a MergeError message. -/
def perform_merge_operation (existing_df new_df : DataFrame)
    (merge_strategy : String) (merge_column : Option String)
    (join_type : String) (prefix_conflicting : Bool) :
    Except String DataFrame :=
  if merge_strategy == "append_below" then
    .ok (append_below_merge existing_df new_df).1
  else if merge_strategy == "merge_on_column" then
    match merge_column with
    | none => .error "merge_column is required for merge_on_column strategy"
    | some mc =>
      if mc == "" then .error "merge_column is required for merge_on_column strategy"
      else (merge_on_column_join existing_df new_df mc join_type prefix_conflicting).1
  else if merge_strategy == "keep_separate" then
    .ok new_df
  else
    .error ("Unknown merge strategy: " ++ merge_strategy)

end DubHacks

namespace DubHacks

/-! ### Character and word level lemmas -/

theorem ws_eq_false_of_le (c : Char) (h : 65 ≤ c.toNat) : ws c = false := by
  have h1 : c ≠ ' ' := by
    intro hc; subst hc; exact absurd h (by decide)
  have h2 : c ≠ '\t' := by
    intro hc; subst hc; exact absurd h (by decide)
  have h3 : c ≠ '\r' := by
    intro hc; subst hc; exact absurd h (by decide)
  have h4 : c ≠ '\n' := by
    intro hc; subst hc; exact absurd h (by decide)
  simp [ws, Char.isWhitespace, h1, h2, h3, h4]

theorem toLower_eq_ofNat (c : Char) (h : 65 ≤ c.toNat ∧ c.toNat ≤ 90) :
    Char.toLower c = Char.ofNat (c.toNat + 32) := by
  show (if c.toNat ≥ 65 ∧ c.toNat ≤ 90 then Char.ofNat (c.toNat + 32) else c) = _
  rw [if_pos h]

theorem toLower_eq_self (c : Char) (h : ¬ (65 ≤ c.toNat ∧ c.toNat ≤ 90)) :
    Char.toLower c = c := by
  show (if c.toNat ≥ 65 ∧ c.toNat ≤ 90 then Char.ofNat (c.toNat + 32) else c) = _
  rw [if_neg h]

theorem ws_toLower (c : Char) : ws (Char.toLower c) = ws c := by
  by_cases h : 65 ≤ c.toNat ∧ c.toNat ≤ 90
  · rw [toLower_eq_ofNat c h, ws_eq_false_of_le c h.1]
    obtain ⟨h1, h2⟩ := h
    set n := c.toNat with hn
    interval_cases n <;> decide
  · rw [toLower_eq_self c h]

theorem toLower_idem (c : Char) :
    Char.toLower (Char.toLower c) = Char.toLower c := by
  by_cases h : 65 ≤ c.toNat ∧ c.toNat ≤ 90
  · rw [toLower_eq_ofNat c h]
    obtain ⟨h1, h2⟩ := h
    set n := c.toNat with hn
    interval_cases n <;> decide
  · rw [toLower_eq_self c h, toLower_eq_self c h]

theorem fields_cons (c : Char) (cs : List Char) :
    fields (c :: cs) =
      (if ws c then [] :: fields cs
       else
         match fields cs with
         | [] => [[c]]
         | w :: rest => (c :: w) :: rest) := rfl

theorem fields_ne_nil (cs : List Char) : fields cs ≠ [] := by
  induction cs with
  | nil => simp [fields]
  | cons c cs ih =>
    rw [fields_cons]
    by_cases h : ws c
    · simp [h]
    · cases hcs : fields cs with
      | nil => exact absurd hcs ih
      | cons w rest => simp [h, hcs]

theorem fields_cons_ws (c : Char) (cs : List Char) (h : ws c = true) :
    fields (c :: cs) = [] :: fields cs := by
  rw [fields_cons, if_pos h]

theorem fields_cons_not_ws (c : Char) (cs : List Char) (h : ws c = false) :
    fields (c :: cs) = (c :: (fields cs).headD []) :: (fields cs).tail := by
  cases hcs : fields cs with
  | nil => exact absurd hcs (fields_ne_nil cs)
  | cons w rest =>
    rw [fields_cons, hcs]
    simp [h]

theorem fields_word_append (w : List Char) (cs : List Char)
    (hw : ∀ c ∈ w, ws c = false) :
    fields (w ++ cs) = (w ++ (fields cs).headD []) :: (fields cs).tail := by
  induction w with
  | nil =>
    cases hcs : fields cs with
    | nil => exact absurd hcs (fields_ne_nil cs)
    | cons f rest => simp [hcs]
  | cons c w ih =>
    have hc : ws c = false := hw c (List.mem_cons_self c w)
    have hw2 : ∀ b ∈ w, ws b = false := fun b hb => hw b (List.mem_cons_of_mem c hb)
    have hrec := ih hw2
    rw [List.cons_append, fields_cons_not_ws c (w ++ cs) hc, hrec]
    simp

theorem mem_fields_not_ws (cs : List Char) :
    ∀ w ∈ fields cs, ∀ c ∈ w, ws c = false := by
  induction cs with
  | nil =>
    intro w hw c hc
    simp [fields] at hw
    subst hw
    simp at hc
  | cons b cs ih =>
    intro w hw c hc
    by_cases hb : ws b
    · rw [fields_cons_ws b cs hb] at hw
      rcases List.mem_cons.mp hw with h | h
      · subst h; simp at hc
      · exact ih w h c hc
    · rw [fields_cons_not_ws b cs (by simpa using hb)] at hw
      rcases List.mem_cons.mp hw with h | h
      · subst h
        rcases List.mem_cons.mp hc with h | h
        · subst h; simpa using hb
        · cases hhd : (fields cs).headD [] with
          | nil => rw [hhd] at h; simp at h
          | cons f r =>
            rw [hhd] at h
            have hmem : (f :: r) ∈ fields cs := by
              cases hcs : fields cs with
              | nil => exact absurd hcs (fields_ne_nil cs)
              | cons a as =>
                rw [hcs] at hhd
                simp at hhd
                rw [hhd]
                exact List.mem_cons_self _ _
            exact ih (f :: r) hmem c h
      · have hmem : w ∈ fields cs := by
          cases hcs : fields cs with
          | nil => exact absurd hcs (fields_ne_nil cs)
          | cons a as =>
            rw [hcs] at h
            simp at h
            exact List.mem_cons_of_mem a h
        exact ih w hmem c hc

/-- A word list is valid when every word is nonempty and whitespace-free. -/
def ValidWords (ts : List (List Char)) : Prop :=
  ∀ w ∈ ts, w ≠ [] ∧ ∀ c ∈ w, ws c = false

theorem validWords_wordsOf (cs : List Char) : ValidWords (wordsOf cs) := by
  intro w hw
  have hmem : w ∈ fields cs := List.mem_of_mem_filter hw
  refine ⟨?_, mem_fields_not_ws cs w hmem⟩
  have := List.of_mem_filter hw
  simpa [List.isEmpty_iff] using this

theorem wordsOf_joinSpace (ts : List (List Char)) (h : ValidWords ts) :
    wordsOf (joinSpace ts) = ts := by
  induction ts with
  | nil => rfl
  | cons w rest ih =>
    obtain ⟨hw_ne, hw_ws⟩ := h w (List.mem_cons_self w rest)
    have hrest : ValidWords rest := fun v hv => h v (List.mem_cons_of_mem w hv)
    cases rest with
    | nil =>
      show ((fields (joinSpace [w])).filter _) = [w]
      have : joinSpace [w] = w ++ ([] : List Char) := by simp [joinSpace]
      rw [this, fields_word_append w [] hw_ws]
      simp [fields, wordsOf, List.isEmpty_iff, hw_ne]
    | cons x rest2 =>
      have hx := ih hrest
      show ((fields (joinSpace (w :: x :: rest2))).filter _) = _
      have hjoin : joinSpace (w :: x :: rest2) = w ++ ' ' :: joinSpace (x :: rest2) := by
        simp [joinSpace]
      rw [hjoin, fields_word_append w (' ' :: joinSpace (x :: rest2)) hw_ws,
        fields_cons_ws ' ' _ (by decide)]
      simp only [List.headD_cons, List.tail_cons, List.append_nil]
      rw [List.filter_cons_of_pos (by simpa [List.isEmpty_iff] using hw_ne)]
      exact congrArg (w :: ·) hx

theorem joinSpace_append_singleton (ts : List (List Char)) (v : List Char)
    (h : ts ≠ []) : joinSpace (ts ++ [v]) = joinSpace ts ++ ' ' :: v := by
  induction ts with
  | nil => exact absurd rfl h
  | cons u rest ih =>
    cases rest with
    | nil => simp [joinSpace]
    | cons x rest2 =>
      have := ih (by simp)
      show joinSpace (u :: ((x :: rest2) ++ [v])) = _
      rw [show (x :: rest2) ++ [v] = x :: (rest2 ++ [v]) by simp]
      simp only [joinSpace] at *
      rw [show x :: (rest2 ++ [v]) = (x :: rest2) ++ [v] by simp, this]
      simp [joinSpace]

theorem joinSpace_reverse (ts : List (List Char)) :
    (joinSpace ts).reverse = joinSpace ((ts.map List.reverse).reverse) := by
  induction ts with
  | nil => rfl
  | cons w rest ih =>
    cases rest with
    | nil => simp [joinSpace]
    | cons x rest2 =>
      have hne : ((x :: rest2).map List.reverse).reverse ≠ [] := by simp
      show (w ++ ' ' :: joinSpace (x :: rest2)).reverse = _
      rw [List.reverse_append, List.reverse_cons]
      show (joinSpace (x :: rest2)).reverse ++ [' '] ++ w.reverse = _
      rw [ih]
      rw [show ((w :: x :: rest2).map List.reverse).reverse
          = ((x :: rest2).map List.reverse).reverse ++ [w.reverse] by simp]
      rw [joinSpace_append_singleton _ _ hne]
      simp

theorem validWords_reverse (ts : List (List Char)) (h : ValidWords ts) :
    ValidWords ((ts.map List.reverse).reverse) := by
  intro w hw
  rw [List.mem_reverse, List.mem_map] at hw
  obtain ⟨v, hv, rfl⟩ := hw
  obtain ⟨hne, hws⟩ := h v hv
  exact ⟨by simpa using hne, fun c hc => hws c (List.mem_reverse.mp hc)⟩

theorem dropWhile_joinSpace (ts : List (List Char)) (h : ValidWords ts) :
    (joinSpace ts).dropWhile ws = joinSpace ts := by
  cases ts with
  | nil => rfl
  | cons w rest =>
    obtain ⟨hne, hws⟩ := h w (List.mem_cons_self w rest)
    cases w with
    | nil => exact absurd rfl hne
    | cons c w2 =>
      have hc : ws c = false := hws c (List.mem_cons_self c w2)
      cases rest with
      | nil =>
        show List.dropWhile ws (c :: w2) = _
        rw [List.dropWhile_cons_of_neg (by simp [hc])]
        simp [joinSpace]
      | cons x rest2 =>
        show List.dropWhile ws ((c :: w2) ++ ' ' :: joinSpace (x :: rest2)) = _
        rw [List.cons_append, List.dropWhile_cons_of_neg (by simp [hc])]
        simp [joinSpace]

theorem stripChars_joinSpace (ts : List (List Char)) (h : ValidWords ts) :
    stripChars (joinSpace ts) = joinSpace ts := by
  unfold stripChars
  rw [dropWhile_joinSpace ts h, joinSpace_reverse ts,
    dropWhile_joinSpace _ (validWords_reverse ts h), ← joinSpace_reverse ts,
    List.reverse_reverse]

theorem collapseChars_joinSpace (ts : List (List Char)) (h : ValidWords ts) :
    collapseChars (joinSpace ts) = joinSpace ts := by
  unfold collapseChars
  rw [stripChars_joinSpace ts h, wordsOf_joinSpace ts h]

theorem collapseChars_idem (cs : List Char) :
    collapseChars (collapseChars cs) = collapseChars cs := by
  show collapseChars (joinSpace (wordsOf (stripChars cs))) = _
  exact collapseChars_joinSpace _ (validWords_wordsOf _)

/-! ### String level lemmas -/

theorem collapse_ws_idem (s : String) :
    collapse_ws (collapse_ws s) = collapse_ws s :=
  congrArg String.mk (collapseChars_idem s.data)

theorem py_lower_idem (s : String) : py_lower (py_lower s) = py_lower s := by
  refine congrArg String.mk ?_
  show (s.data.map Char.toLower).map Char.toLower = _
  rw [List.map_map]
  exact List.map_congr_left (fun c _ => toLower_idem c)

theorem map_toLower_joinSpace (ts : List (List Char)) :
    (joinSpace ts).map Char.toLower = joinSpace (ts.map (List.map Char.toLower)) := by
  induction ts with
  | nil => rfl
  | cons w rest ih =>
    cases rest with
    | nil => rfl
    | cons x rest2 =>
      show ((w ++ ' ' :: joinSpace (x :: rest2)).map Char.toLower) = _
      rw [List.map_append, List.map_cons]
      have hsp : Char.toLower ' ' = ' ' := by decide
      rw [hsp, ih]
      rfl

theorem validWords_map_toLower (ts : List (List Char)) (h : ValidWords ts) :
    ValidWords (ts.map (List.map Char.toLower)) := by
  intro w hw
  rw [List.mem_map] at hw
  obtain ⟨v, hv, rfl⟩ := hw
  obtain ⟨hne, hws⟩ := h v hv
  refine ⟨by simpa using hne, fun c hc => ?_⟩
  rw [List.mem_map] at hc
  obtain ⟨b, hb, rfl⟩ := hc
  rw [ws_toLower]
  exact hws b hb

theorem collapse_lower_collapse (s : String) :
    collapse_ws (py_lower (collapse_ws s)) = py_lower (collapse_ws s) := by
  have key :
      collapseChars ((joinSpace (wordsOf (stripChars s.data))).map Char.toLower) =
        (joinSpace (wordsOf (stripChars s.data))).map Char.toLower := by
    rw [map_toLower_joinSpace]
    exact collapseChars_joinSpace _
      (validWords_map_toLower _ (validWords_wordsOf _))
  exact congrArg String.mk key

theorem normalize_name_unnamed (lb : Bool) :
    normalize_name lb "unnamed" = "unnamed" := by
  cases lb <;> decide

theorem normalize_name_idem (lb : Bool) (c : String) :
    normalize_name lb (normalize_name lb c) = normalize_name lb c := by
  by_cases hu : (if lb then py_lower (collapse_ws c) else collapse_ws c) = ""
  · have hform : normalize_name lb c = "unnamed" := by
      cases lb <;> simp only [normalize_name] <;>
        simp only [if_true, if_false, Bool.false_eq_true] <;>
        rw [if_pos (by simpa using hu)]
    rw [hform, normalize_name_unnamed]
  · have hform : normalize_name lb c =
        (if lb then py_lower (collapse_ws c) else collapse_ws c) := by
      cases lb <;> simp only [normalize_name] <;>
        simp only [if_true, if_false, Bool.false_eq_true] <;>
        rw [if_neg (by simpa using hu)]
    rw [hform]
    cases lb with
    | false =>
      simp only [if_false, Bool.false_eq_true] at hu ⊢
      have hcc : collapse_ws (collapse_ws c) = collapse_ws c := collapse_ws_idem c
      simp only [normalize_name, hcc, Bool.false_eq_true, if_false]
      rw [if_neg hu]
    | true =>
      simp only [if_true] at hu ⊢
      have hcc : collapse_ws (py_lower (collapse_ws c)) = py_lower (collapse_ws c) :=
        collapse_lower_collapse c
      have hll : py_lower (py_lower (collapse_ws c)) = py_lower (collapse_ws c) :=
        py_lower_idem _
      simp only [normalize_name, hcc, hll, if_true]
      rw [if_neg hu]

/-! ### Column name standardization lemmas -/

theorem standardize_go_all_fresh (lb : Bool) (cols : List String) :
    ∀ seen : List (String × Nat),
      (cols.map (normalize_name lb)).Nodup →
      (∀ b ∈ cols.map (normalize_name lb), seen.lookup b = none) →
      standardize_go lb seen cols = cols.map (normalize_name lb) := by
  induction cols with
  | nil => intro seen _ _; rfl
  | cons c rest ih =>
    intro seen hnd hfresh
    have hbase : seen.lookup (normalize_name lb c) = none :=
      hfresh _ (by simp)
    have hnd2 : (rest.map (normalize_name lb)).Nodup :=
      (List.nodup_cons.mp (by simpa using hnd)).2
    have hnotmem : normalize_name lb c ∉ rest.map (normalize_name lb) :=
      (List.nodup_cons.mp (by simpa using hnd)).1
    show standardize_go lb seen (c :: rest) = _
    simp only [standardize_go, hbase]
    rw [List.map_cons]
    refine congrArg (normalize_name lb c :: ·) ?_
    refine ih _ hnd2 ?_
    intro b hb
    have hne : b ≠ normalize_name lb c := by
      intro heq
      exact hnotmem (heq ▸ hb)
    show List.lookup b ((normalize_name lb c, 0) :: seen) = none
    have hbeq : (b == normalize_name lb c) = false := by
      simpa using hne
    simp only [List.lookup, hbeq]
    exact hfresh b (List.mem_cons_of_mem _ hb)

/-! ### Noise stage lemmas -/

theorem zip_filter_mask (rows : List (List Cell)) :
    ∀ mask : List Bool, mask.length = rows.length →
      ((rows.zip mask).filter (fun p => !p.2)).map (fun p => p.1) =
        ((List.range rows.length).filter (fun j => !(mask.getD j false))).map
          (fun j => rows.getD j []) := by
  induction rows with
  | nil => intro mask h; rfl
  | cons r rest ih =>
    intro mask h
    cases mask with
    | nil => simp at h
    | cons b mb =>
      have hlen : mb.length = rest.length := by simpa using h
      have hrec := ih mb hlen
      have hmap : (((List.range rest.length).map Nat.succ).filter
            (fun j => !((b :: mb).getD j false))).map
            (fun j => (r :: rest).getD j []) =
          ((List.range rest.length).filter (fun j => !(mb.getD j false))).map
            (fun j => rest.getD j []) := by
        rw [List.filter_map, List.map_map]
        have hfil : (List.range rest.length).filter
              ((fun j => !((b :: mb).getD j false)) ∘ Nat.succ) =
            (List.range rest.length).filter (fun j => !(mb.getD j false)) := by
          refine List.filter_congr ?_
          intro j _
          simp [Function.comp, List.getD]
        rw [hfil]
        refine List.map_congr_left ?_
        intro j _
        simp [Function.comp, List.getD]
      rw [List.zip_cons_cons, List.length_cons, List.range_succ_eq_map]
      simp only [List.filter_cons]
      cases b with
      | true =>
        rw [if_neg (by simp), if_neg (by simp), hmap]
        exact hrec
      | false =>
        rw [if_pos (by simp), if_pos (by simp), List.map_cons, List.map_cons,
          hmap, hrec]
        simp [List.getD]

theorem all_none_filterMap (row : List Cell)
    (h : row.all Option.isNone = true) : row.filterMap id = ([] : List String) := by
  rw [List.filterMap_eq_nil]
  intro c hc
  have := List.all_eq_true.mp h c hc
  cases c with
  | none => rfl
  | some v => simp at this

theorem is_noise_row_of_all_none (row : List Cell)
    (h : row.all Option.isNone = true) : is_noise_row row = true := by
  unfold is_noise_row
  rw [all_none_filterMap row h]

/-! ### Merge frame lemmas -/

theorem contains_iff (l : List String) (c : String) :
    l.contains c = true ↔ c ∈ l := List.elem_iff

theorem contains_eq_false (l : List String) (c : String) (h : c ∉ l) :
    l.contains c = false := by
  rw [Bool.eq_false_iff]
  intro hc
  exact h ((contains_iff l c).mp hc)

theorem add_missing_columns_nil (df : DataFrame) :
    add_missing_columns df [] = df := by
  cases df with
  | mk header rows =>
    simp [add_missing_columns]

theorem getD_map_of_lt {α β : Type} (f : α → β) (l : List α) (j : Nat)
    (h : j < l.length) (d : β) (d' : α) :
    (l.map f).getD j d = f (l.getD j d') := by
  rw [List.getD_eq_getElem _ _ (by simpa using h), List.getElem_map,
    List.getD_eq_getElem _ _ h]

theorem getD_append_of_lt {α : Type} (xs ys : List α) (i : Nat)
    (h : i < xs.length) (d : α) : (xs ++ ys).getD i d = xs.getD i d := by
  simp [List.getD_eq_getElem?_getD, List.getElem?_append_left h]

theorem getD_append_add {α : Type} (xs ys : List α) (j : Nat) (d : α) :
    (xs ++ ys).getD (xs.length + j) d = ys.getD j d := by
  rw [List.getD_eq_getElem?_getD, List.getD_eq_getElem?_getD,
    List.getElem?_append_right (by omega)]
  have hidx : xs.length + j - xs.length = j := by omega
  rw [hidx]

theorem colIndex_cons (a : String) (t : List String) (c : String) :
    colIndex (a :: t) c =
      (if a == c then some 0 else (colIndex t c).map (· + 1)) := rfl

theorem colIndex_eq_none_of_not_mem (hdr : List String) (c : String)
    (h : c ∉ hdr) : colIndex hdr c = none := by
  induction hdr with
  | nil => rfl
  | cons a t ih =>
    have ha : ¬ a = c := fun he => h (he ▸ List.mem_cons_self a t)
    have ht : c ∉ t := fun hm => h (List.mem_cons_of_mem a hm)
    unfold colIndex
    rw [if_neg (by simpa using ha), ih ht]
    rfl

theorem colIndex_lt_length (hdr : List String) (c : String) (k : Nat)
    (h : colIndex hdr c = some k) : k < hdr.length := by
  induction hdr generalizing k with
  | nil => simp [colIndex] at h
  | cons a t ih =>
    unfold colIndex at h
    by_cases ha : (a == c) = true
    · rw [if_pos ha] at h
      cases h
      simp
    · rw [if_neg ha] at h
      cases hk : colIndex t c with
      | none => rw [hk] at h; simp at h
      | some k2 =>
        rw [hk] at h
        simp at h
        have := ih k2 hk
        simp [← h]
        omega

theorem colIndex_getD (hdr : List String) (c : String) (k : Nat)
    (h : colIndex hdr c = some k) : hdr.getD k "" = c := by
  induction hdr generalizing k with
  | nil => simp [colIndex] at h
  | cons a t ih =>
    unfold colIndex at h
    by_cases ha : (a == c) = true
    · rw [if_pos ha] at h
      cases h
      simpa using (by simpa using ha : a = c)
    · rw [if_neg ha] at h
      cases hk : colIndex t c with
      | none => rw [hk] at h; simp at h
      | some k2 =>
        rw [hk] at h
        simp at h
        rw [← h]
        simpa using ih k2 hk

theorem colIndex_mem_some (hdr : List String) (c : String) (h : c ∈ hdr) :
    ∃ k, colIndex hdr c = some k := by
  induction hdr with
  | nil => simp at h
  | cons a t ih =>
    by_cases ha : (a == c) = true
    · exact ⟨0, by rw [colIndex_cons, if_pos ha]⟩
    · have hm : c ∈ t := by
        rcases List.mem_cons.mp h with he | hm
        · exact absurd (by simpa using he.symm) ha
        · exact hm
      obtain ⟨k, hk⟩ := ih hm
      exact ⟨k + 1, by rw [colIndex_cons, if_neg ha, hk]; rfl⟩

theorem colIndex_append_of_mem (hdr1 hdr2 : List String) (c : String)
    (h : c ∈ hdr1) : colIndex (hdr1 ++ hdr2) c = colIndex hdr1 c := by
  induction hdr1 with
  | nil => simp at h
  | cons a t ih =>
    by_cases ha : (a == c) = true
    · show colIndex (a :: (t ++ hdr2)) c = colIndex (a :: t) c
      unfold colIndex
      rw [if_pos ha, if_pos ha]
    · have hm : c ∈ t := by
        rcases List.mem_cons.mp h with he | hm
        · exact absurd (by simpa using he.symm) ha
        · exact hm
      show colIndex (a :: (t ++ hdr2)) c = colIndex (a :: t) c
      unfold colIndex
      rw [if_neg ha, if_neg ha, ih hm]

theorem colIndex_append_of_not_mem (hdr1 hdr2 : List String) (c : String)
    (h : c ∉ hdr1) :
    colIndex (hdr1 ++ hdr2) c = (colIndex hdr2 c).map (· + hdr1.length) := by
  induction hdr1 with
  | nil =>
    cases hk : colIndex hdr2 c <;> simp [hk]
  | cons a t ih =>
    have ha : ¬ a = c := fun he => h (he ▸ List.mem_cons_self a t)
    have ht : c ∉ t := fun hm => h (List.mem_cons_of_mem a hm)
    show colIndex (a :: (t ++ hdr2)) c = _
    rw [colIndex_cons, if_neg (by simpa using ha), ih ht]
    cases hk : colIndex hdr2 c with
    | none => simp
    | some k2 =>
      simp only [Option.map_some, Option.map_map, List.length_cons,
        Function.comp]
      refine congrArg some ?_
      show k2 + t.length + 1 = k2 + (t.length + 1)
      omega

theorem col_diff_append_nil (h1 h2 : List String) :
    col_diff (h2 ++ col_diff h1 h2) (h1 ++ col_diff h2 h1) = [] := by
  unfold col_diff
  rw [List.filter_eq_nil]
  intro c hc
  have hmem : c ∈ h1 ++ h2.filter (fun x => !h1.contains x) := by
    rcases List.mem_append.mp hc with hm | hm
    · by_cases hin : c ∈ h1
      · exact List.mem_append.mpr (Or.inl hin)
      · refine List.mem_append.mpr (Or.inr ?_)
        exact List.mem_filter.mpr ⟨hm, by simpa using hin⟩
    · exact List.mem_append.mpr (Or.inl (List.mem_filter.mp hm).1)
  have hcont : (h1 ++ h2.filter (fun x => !h1.contains x)).contains c = true :=
    (contains_iff _ _).mpr hmem
  simp only [hcont]
  decide

theorem reindex_getD_eval (srcHdr target : List String) (row : List Cell)
    (c : String) (k : Nat) (hidx : colIndex target c = some k) :
    (reindex_row srcHdr target row).getD k none =
      (match colIndex srcHdr c with
       | some i => row.getD i none
       | none => none) := by
  unfold reindex_row
  rw [getD_map_of_lt _ _ _ (colIndex_lt_length _ _ _ hidx) _ ""]
  rw [colIndex_getD _ _ _ hidx]

theorem appended_row_getD_none (row : List Cell) (pad : Nat) (k : Nat)
    (hlen : row.length ≤ k) (hk : k < row.length + pad) :
    (row ++ List.replicate pad (none : Cell)).getD k none = none := by
  rw [List.getD_eq_getElem?_getD, List.getElem?_append_right hlen]
  have hlt : k - row.length < pad := by omega
  simp [List.getElem?_replicate, hlt]

/-! ### Join counting lemmas -/

theorem enumFrom_filter_snd_length (p : Cell → Bool) :
    ∀ (l : List Cell) (n : Nat),
      ((List.enumFrom n l).filter (fun q => p q.2)).length = l.countP p := by
  intro l
  induction l with
  | nil => intro n; rfl
  | cons x xs ih =>
    intro n
    rw [List.enumFrom_cons]
    by_cases hx : p x = true
    · simp [List.filter_cons, List.countP_cons, hx, ih (n + 1)]
    · simp [List.filter_cons, List.countP_cons, hx, ih (n + 1)]

theorem sum_map_add_distrib {α : Type} (l : List α) (f g : α → Nat) :
    (l.map (fun a => f a + g a)).sum = (l.map f).sum + (l.map g).sum := by
  induction l with
  | nil => rfl
  | cons a t ih =>
    simp only [List.map_cons, List.sum_cons, ih]
    omega

theorem sum_map_zero {α : Type} (l : List α) :
    (l.map (fun _ => (0 : Nat))).sum = 0 := by
  induction l with
  | nil => rfl
  | cons a t ih => simp [ih]

theorem sum_ite_beq_le_one (kL : List Cell) (hnd : kL.Nodup) (w : Cell) :
    (kL.map (fun v => if w == v then 1 else 0)).sum ≤ 1 := by
  induction kL with
  | nil => simp
  | cons v t ih =>
    obtain ⟨hnotmem, hnd2⟩ := List.nodup_cons.mp hnd
    rw [List.map_cons, List.sum_cons]
    by_cases hw : (w == v) = true
    · have hv : w = v := by simpa using hw
      have hzero : (t.map (fun u => if w == u then 1 else 0)).sum = 0 := by
        have hpt : ∀ u ∈ t, (if w == u then 1 else 0) = 0 := by
          intro u hu
          have hne : ¬ w = u := by
            intro he
            exact hnotmem (by rw [hv] at he; rw [he]; exact hu)
          simp [hne]
        rw [List.map_congr_left hpt]
        exact sum_map_zero t
      rw [hw, if_pos rfl, hzero]
    · have hw2 : (w == v) = false := by simpa using hw
      rw [hw2]
      simpa using ih hnd2

theorem sum_ite_beq_ge_one (kL : List Cell) (w : Cell) (v : Cell)
    (hv : v ∈ kL) (hw : (w == v) = true) :
    1 ≤ (kL.map (fun u => if w == u then 1 else 0)).sum := by
  induction kL with
  | nil => simp at hv
  | cons a t ih =>
    rw [List.map_cons, List.sum_cons]
    rcases List.mem_cons.mp hv with he | hm
    · subst he
      rw [hw]
      simp
    · have h2 := ih hm
      by_cases hc : (w == a) = true
      · rw [hc]; simp
      · have hc2 : (w == a) = false := by simpa using hc
        rw [hc2]
        simpa using h2

theorem countP_beq_le_one (l : List Cell) (hnd : l.Nodup) (v : Cell) :
    l.countP (fun w => w == v) ≤ 1 := by
  induction l with
  | nil => simp
  | cons a t ih =>
    rw [List.countP_cons]
    obtain ⟨hna, hnd2⟩ := List.nodup_cons.mp hnd
    by_cases ha : (a == v) = true
    · have hav : a = v := by simpa using ha
      have hz : t.countP (fun w => w == v) = 0 := by
        rw [List.countP_eq_zero]
        intro w hw hwv
        have hwv2 : w = v := by simpa using hwv
        exact hna (by rw [hav, ← hwv2]; exact hw)
      simp [ha, hz]
    · have ha2 : (a == v) = false := by simpa using ha
      simp only [ha2]
      simpa using ih hnd2

theorem sum_countP_le (kR : List Cell) :
    ∀ kL : List Cell, kL.Nodup →
      (kL.map (fun v => kR.countP (fun w => w == v))).sum ≤ kR.length := by
  induction kR with
  | nil =>
    intro kL _
    have hz : ∀ v ∈ kL, ([] : List Cell).countP (fun w => w == v) = 0 := by
      intro v _; simp
    rw [List.map_congr_left hz, sum_map_zero]
    simp
  | cons w ws ih =>
    intro kL hnd
    have hpt : ∀ v ∈ kL, (w :: ws).countP (fun u => u == v) =
        ws.countP (fun u => u == v) + (if w == v then 1 else 0) := by
      intro v _
      rw [List.countP_cons]
    rw [List.map_congr_left hpt, sum_map_add_distrib]
    have h1 := ih kL hnd
    have h2 := sum_ite_beq_le_one kL hnd w
    simp only [List.length_cons]
    omega

theorem sum_countP_ge_matched (kR : List Cell) (kL : List Cell) :
    kR.countP (fun w => kL.any (fun v => v == w)) ≤
      (kL.map (fun v => kR.countP (fun w => w == v))).sum := by
  induction kR with
  | nil => simp
  | cons w ws ih =>
    have hpt : ∀ v ∈ kL, (w :: ws).countP (fun u => u == v) =
        ws.countP (fun u => u == v) + (if w == v then 1 else 0) := by
      intro v _
      rw [List.countP_cons]
    rw [List.map_congr_left hpt, sum_map_add_distrib, List.countP_cons]
    by_cases hm : (kL.any (fun v => v == w)) = true
    · obtain ⟨v, hv, hvw⟩ := List.any_eq_true.mp hm
      have hwv : (w == v) = true := by
        have : v = w := by simpa using hvw
        simp [this]
      have hone := sum_ite_beq_ge_one kL w v hv hwv
      simp only [hm, if_true]
      omega
    · have hm2 : (kL.any (fun v => v == w)) = false := by
        rw [Bool.eq_false_iff]
        exact hm
      simp only [hm2, Bool.false_eq_true, if_false]
      omega

theorem countP_partition (l : List Cell) (p : Cell → Bool) :
    l.countP p + l.countP (fun a => !(p a)) = l.length := by
  induction l with
  | nil => rfl
  | cons a t ih =>
    rw [List.countP_cons, List.countP_cons, List.length_cons]
    by_cases ha : p a = true
    · simp [ha]; omega
    · have ha2 : p a = false := by simpa using ha
      simp [ha2]; omega

theorem all_not_beq_eq_not_any (kL : List Cell) (w : Cell) :
    (kL.all (fun v => !(v == w))) = !(kL.any (fun v => v == w)) := by
  induction kL with
  | nil => rfl
  | cons a t ih => simp [List.all_cons, List.any_cons, ih]

theorem length_bind_le_one {α β : Type} (l : List α) (f : α → List β)
    (h : ∀ a ∈ l, (f a).length ≤ 1) : (l.flatMap f).length ≤ l.length := by
  induction l with
  | nil => simp
  | cons a t ih =>
    rw [List.flatMap_cons, List.length_append, List.length_cons]
    have h1 := h a (List.mem_cons_self a t)
    have h2 := ih (fun b hb => h b (List.mem_cons_of_mem a hb))
    omega

theorem length_bind_ge_one {α β : Type} (l : List α) (f : α → List β)
    (h : ∀ a ∈ l, 1 ≤ (f a).length) : l.length ≤ (l.flatMap f).length := by
  induction l with
  | nil => simp
  | cons a t ih =>
    rw [List.flatMap_cons, List.length_append, List.length_cons]
    have h1 := h a (List.mem_cons_self a t)
    have h2 := ih (fun b hb => h b (List.mem_cons_of_mem a hb))
    omega

theorem length_bind_eq_sum {α β : Type} (l : List α) (f : α → List β) :
    (l.flatMap f).length = (l.map (fun a => (f a).length)).sum := by
  induction l with
  | nil => rfl
  | cons a t ih =>
    rw [List.flatMap_cons, List.length_append, List.map_cons, List.sum_cons, ih]

theorem length_bind_ge_sum {α β : Type} (l : List α) (f : α → List β)
    (g : α → Nat) (h : ∀ a ∈ l, g a ≤ (f a).length) :
    (l.map g).sum ≤ (l.flatMap f).length := by
  induction l with
  | nil => simp
  | cons a t ih =>
    rw [List.flatMap_cons, List.length_append, List.map_cons, List.sum_cons]
    have h1 := h a (List.mem_cons_self a t)
    have h2 := ih (fun b hb => h b (List.mem_cons_of_mem a hb))
    omega

theorem sum_over_enum_snd (kL : List Cell) (g : Cell → Nat) :
    ∀ n, ((List.enumFrom n kL).map (fun p => g p.2)).sum = (kL.map g).sum := by
  induction kL with
  | nil => intro n; rfl
  | cons x xs ih =>
    intro n
    rw [List.enumFrom_cons, List.map_cons, List.map_cons, List.sum_cons,
      List.sum_cons, ih (n + 1)]

theorem merge_pair_entry_length_inner (kR : List Cell) (p : Nat × Cell) :
    (merge_pair_entry kR "inner" p).length = kR.countP (fun w => w == p.2) := by
  have h0 := enumFrom_filter_snd_length (fun w => w == p.2) kR 0
  have henum : List.enumFrom 0 kR = kR.enum := rfl
  rw [henum] at h0
  simp only [merge_pair_entry]
  by_cases hemp : ((kR.enum.filter (fun q => q.2 == p.2)).isEmpty) = true
  · rw [if_pos hemp]
    rw [List.isEmpty_iff.mp hemp] at h0
    rw [← h0]
    rfl
  · rw [if_neg hemp, List.length_map]
    exact h0

theorem merge_pair_entry_outer_ge_one (kR : List Cell) (p : Nat × Cell) :
    1 ≤ (merge_pair_entry kR "outer" p).length := by
  simp only [merge_pair_entry]
  by_cases hemp : ((kR.enum.filter (fun q => q.2 == p.2)).isEmpty) = true
  · rw [if_pos hemp]
    rw [show (("outer" == "left" || "outer" == "outer") : Bool) = true from rfl]
    simp
  · rw [if_neg hemp, List.length_map]
    have hne : kR.enum.filter (fun q => q.2 == p.2) ≠ [] := by
      intro he
      exact hemp (by rw [he]; rfl)
    have := List.length_pos.mpr hne
    omega

theorem merge_pair_entry_outer_ge_count (kR : List Cell) (p : Nat × Cell) :
    kR.countP (fun w => w == p.2) ≤ (merge_pair_entry kR "outer" p).length := by
  have h0 := enumFrom_filter_snd_length (fun w => w == p.2) kR 0
  have henum : List.enumFrom 0 kR = kR.enum := rfl
  rw [henum] at h0
  simp only [merge_pair_entry]
  by_cases hemp : ((kR.enum.filter (fun q => q.2 == p.2)).isEmpty) = true
  · rw [if_pos hemp]
    rw [List.isEmpty_iff.mp hemp] at h0
    rw [← h0]
    simp
  · rw [if_neg hemp, List.length_map, h0]

theorem merge_pairs_inner_le (kL kR : List Cell) (hL : kL.Nodup)
    (hR : kR.Nodup) :
    (merge_pairs kL kR "inner").length ≤ min kL.length kR.length := by
  have hright : merge_pairs kL kR "inner" =
      kL.enum.flatMap (merge_pair_entry kR "inner") := by
    unfold merge_pairs
    rw [show (("inner" == "right" || "inner" == "outer") : Bool) = false from rfl]
    simp
  rw [hright, Nat.le_min]
  constructor
  · have h1 : (kL.enum.flatMap (merge_pair_entry kR "inner")).length ≤
        kL.enum.length := by
      refine length_bind_le_one _ _ ?_
      intro p _
      rw [merge_pair_entry_length_inner]
      exact countP_beq_le_one kR hR p.2
    simpa using h1
  · rw [length_bind_eq_sum]
    have hcongr : ∀ p ∈ kL.enum, (merge_pair_entry kR "inner" p).length =
        kR.countP (fun w => w == p.2) := fun p _ =>
      merge_pair_entry_length_inner kR p
    rw [List.map_congr_left hcongr]
    have hsum := sum_over_enum_snd kL (fun v => kR.countP (fun w => w == v)) 0
    have henum : kL.enum = List.enumFrom 0 kL := rfl
    rw [henum, hsum]
    exact sum_countP_le kR kL hL

theorem merge_pairs_outer_ge (kL kR : List Cell) :
    max kL.length kR.length ≤ (merge_pairs kL kR "outer").length := by
  unfold merge_pairs
  rw [show (("outer" == "right" || "outer" == "outer") : Bool) = true from rfl]
  rw [if_pos rfl, List.length_append]
  rw [Nat.max_le]
  constructor
  · have h1 : kL.enum.length ≤
        (kL.enum.flatMap (merge_pair_entry kR "outer")).length := by
      refine length_bind_ge_one _ _ ?_
      intro p _
      exact merge_pair_entry_outer_ge_one kR p
    have h2 : kL.length = kL.enum.length := by simp
    omega
  · have hleft : ((kL.map (fun v => kR.countP (fun w => w == v))).sum) ≤
        (kL.enum.flatMap (merge_pair_entry kR "outer")).length := by
      have h1 : ((kL.enum.map (fun p => kR.countP (fun w => w == p.2))).sum) ≤
          (kL.enum.flatMap (merge_pair_entry kR "outer")).length := by
        refine length_bind_ge_sum _ _ _ ?_
        intro p _
        exact merge_pair_entry_outer_ge_count kR p
      have hsum := sum_over_enum_snd kL (fun v => kR.countP (fun w => w == v)) 0
      have henum : kL.enum = List.enumFrom 0 kL := rfl
      rw [henum] at h1
      rw [← hsum]
      exact h1
    have hmatched := sum_countP_ge_matched kR kL
    have hunmatched : ((kR.enum.filter
        (fun q => kL.all (fun v => !(v == q.2)))).map
        (fun q => ((none : Option Nat), some q.1))).length =
        kR.countP (fun w => kL.all (fun v => !(v == w))) := by
      rw [List.length_map]
      exact enumFrom_filter_snd_length (fun w => kL.all (fun v => !(v == w))) kR 0
    have hall_eq : kR.countP (fun w => kL.all (fun v => !(v == w))) =
        kR.countP (fun w => !(kL.any (fun v => v == w))) := by
      refine List.countP_congr ?_
      intro w _
      rw [all_not_beq_eq_not_any]
    have hpart := countP_partition kR (fun w => kL.any (fun v => v == w))
    omega

theorem column_values_length (df : DataFrame) (c : String) (h : c ∈ df.header) :
    (column_values df c).length = df.rows.length := by
  obtain ⟨k, hk⟩ := colIndex_mem_some _ _ h
  unfold column_values
  rw [hk]
  exact List.length_map _ _

theorem colIndex_map_eq (hdr : List String) (key : String) (f : String → String)
    (hf : ∀ a ∈ hdr, (f a = key ↔ a = key)) :
    colIndex (hdr.map f) key = colIndex hdr key := by
  induction hdr with
  | nil => rfl
  | cons a t ih =>
    rw [List.map_cons, colIndex_cons, colIndex_cons,
      ih (fun b hb => hf b (List.mem_cons_of_mem a hb))]
    have ha := hf a (List.mem_cons_self a t)
    by_cases he : a = key
    · rw [if_pos (by simpa using ha.mpr he), if_pos (by simpa using he)]
    · rw [if_neg (by simpa using (fun h2 => he (ha.mp h2))),
        if_neg (by simpa using he)]

theorem column_values_map_header (B : DataFrame) (key : String)
    (f : String → String) (hf : ∀ a ∈ B.header, (f a = key ↔ a = key)) :
    column_values ⟨B.header.map f, B.rows⟩ key = column_values B key := by
  unfold column_values
  rw [show colIndex (DataFrame.mk (B.header.map f) B.rows).header key =
      colIndex B.header key from colIndex_map_eq B.header key f hf]

theorem pd_merge_length (L R : DataFrame) (key jt : String) :
    (pd_merge L R key jt).rows.length =
      (merge_pairs (column_values L key) (column_values R key) jt).length := by
  unfold pd_merge
  exact List.length_map _ _

theorem merge_ok_shape (A B : DataFrame) (key jt : String) (px : Bool)
    (M : DataFrame)
    (hok : (merge_on_column_join A B key jt px).1 = .ok M) :
    A.header.contains key = true ∧ B.header.contains key = true ∧
    valid_join_types.contains jt = true ∧
    M = pd_merge A
      (if px && !(((B.header.filter (fun c => A.header.contains c)).filter
          (fun c => !(c == key))).isEmpty) then
        DataFrame.mk (B.header.map (fun c =>
          if ((B.header.filter (fun c2 => A.header.contains c2)).filter
              (fun c2 => !(c2 == key))).contains c then "new_" ++ c else c))
          B.rows
      else B) key jt := by
  simp only [merge_on_column_join] at hok
  by_cases h1 : A.header.contains key = true
  · by_cases h2 : B.header.contains key = true
    · by_cases h3 : valid_join_types.contains jt = true
      · refine ⟨h1, h2, h3, ?_⟩
        rw [h1, h2, h3] at hok
        simp only [Bool.not_true, Bool.false_eq_true, if_false] at hok
        cases hok
        rfl
      · exfalso
        have h3f : valid_join_types.contains jt = false := by simpa using h3
        rw [h1, h2, h3f] at hok
        simp at hok
    · exfalso
      have h2f : B.header.contains key = false := by simpa using h2
      rw [h1, h2f] at hok
      simp at hok
  · exfalso
    have h1f : A.header.contains key = false := by simpa using h1
    rw [h1f] at hok
    simp at hok

end DubHacks

namespace DubHacks

/-! ### Claim theorems -/

/-- C9 counterexample: the cell holding the text " nan " trims to "nan",
but the placeholder stage leaves it unchanged, because the replace pattern
is anchored with no whitespace allowance. -/
theorem placeholder_ignores_whitespace_cell :
    py_lower (py_strip " nan ") = "nan" ∧
      replace_placeholder_cell (some " nan ") = some " nan " := by
  exact ⟨by decide, by decide⟩

/-- C9 amended: a non-null cell becomes null exactly when its full,
untrimmed value case-insensitively equals nan or none (surrounding
whitespace prevents the rewrite); null cells stay null; and the placeholder
stage runs before the noise heuristic in the pipeline prefix. -/
theorem placeholder_cell_spec :
    (∀ s : String,
      (replace_placeholder_cell (some s) = none ↔
        (py_lower s = "nan" ∨ py_lower s = "none"))) ∧
    replace_placeholder_cell none = none ∧
    (∀ rows : List (List Cell),
      placeholder_then_noise rows =
        noise_row_stage (rows.map (fun row => row.map replace_placeholder_cell))) := by
  refine ⟨fun s => ?_, rfl, fun rows => rfl⟩
  constructor
  · intro h
    by_cases h1 : py_lower s = "nan"
    · exact Or.inl h1
    · by_cases h2 : py_lower s = "none"
      · exact Or.inr h2
      · exfalso
        simp only [replace_placeholder_cell, h1, h2] at h
        simp at h
  · intro h
    rcases h with h | h <;> simp [replace_placeholder_cell, h]

/-- C2: normalize_categoricals on a categorical column holding one text
cell and one null cell: the text is trimmed, its whitespace run collapsed
and it is lowercased, but the null cell does not pass through unchanged:
astype(str) renders it as the text nan, contradicting the specified null
pass-through. -/
theorem normalize_categoricals_nulls_become_nan :
    normalize_categoricals true [some " A  B ", none] = [some "a b", some "nan"] ∧
      (some "nan" : Cell) ≠ none := by
  exact ⟨by decide, by decide⟩

/-- C10: on a table of at most 1000 rows, the noise stage masks every
all-null row at a positive index as noise, never masks row 0, returns
exactly the unmasked rows in order, and reports the number of masked rows
as noise_rows_removed. -/
theorem noise_stage_removes_all_null_rows (rows : List (List Cell))
    (h1000 : rows.length ≤ 1000) (i : Nat) (hi : i < rows.length) (hpos : 0 < i)
    (hnull : (rows.getD i []).all Option.isNone = true) :
    (noise_mask rows).getD i false = true ∧
    (noise_mask rows).getD 0 false = false ∧
    (noise_row_stage rows).1 =
      ((List.range rows.length).filter
        (fun j => !((noise_mask rows).getD j false))).map (fun j => rows.getD j []) ∧
    (noise_row_stage rows).2 = (noise_mask rows).countP id := by
  have hmasklen : (noise_mask rows).length = rows.length := by
    simp [noise_mask]
  refine ⟨?_, ?_, ?_, ?_⟩
  · unfold noise_mask
    have hne : i ≠ 0 := Nat.pos_iff_ne_zero.mp hpos
    have h1 : ((rows.map is_noise_row).set 0 false).getD i false =
        (rows.map is_noise_row).getD i false := by
      simp [List.getD, List.getElem?_set_ne (Ne.symm hne)]
    rw [h1]
    have h2 : (rows.map is_noise_row).getD i false =
        is_noise_row (rows.getD i []) := by
      simp [List.getD, List.getElem?_map, List.getElem?_eq_getElem hi]
    rw [h2]
    exact is_noise_row_of_all_none _ hnull
  · unfold noise_mask
    cases rows with
    | nil => simp at hi
    | cons r rest => simp
  · unfold noise_row_stage
    rw [if_pos h1000]
    exact zip_filter_mask rows (noise_mask rows) hmasklen
  · unfold noise_row_stage
    rw [if_pos h1000]

/-- C1 counterexample: the specification scenario column. The type is
inferred as date and the column is recorded in date_columns_standardized,
but the canonical form is the full ISO timestamp, not date-only, because
the null position fails the all-midnight comparison of cleaning.py line
102; the null itself stays null. -/
theorem date_scenario_not_date_only :
    (infer_and_cast_column false
      [some "2023-01-01", some "2023-02-01", some "2023-03-01", none]).1 =
      .date [some "2023-01-01T00:00:00", some "2023-02-01T00:00:00",
        some "2023-03-01T00:00:00", none] ∧
    (infer_and_cast_column false
      [some "2023-01-01", some "2023-02-01", some "2023-03-01", none]).1 ≠
      .date [some "2023-01-01", some "2023-02-01", some "2023-03-01", none] ∧
    (infer_and_cast_column false
      [some "2023-01-01", some "2023-02-01", some "2023-03-01", none]).2 = true := by
  exact ⟨by decide, by decide, by decide⟩

/-- C1 amended: when date inference is attempted and some value parses, the
column type is date and the column is recorded as standardized; the
canonical form is date-only exactly when every position of the column
parses and every parsed time of day is midnight (a null or unparseable
value forces the full-timestamp form); on the timestamp form each value
that fails to parse becomes null. -/
theorem infer_date_column_spec (forced : Bool) (col : List Cell)
    (hatt : should_attempt_date forced col = true)
    (hsome : (col.map (fun c => c.bind to_datetime)).any Option.isSome = true) :
    (infer_and_cast_column forced col).2 = true ∧
    (infer_and_cast_column forced col).1.dtypeTag = "date" ∧
    ((col.map (fun c => c.bind to_datetime)).all
        (fun o => (o.map is_midnight).getD false) = true →
      (∀ j, j < col.length →
        ∃ dt, (col.getD j none).bind to_datetime = some dt ∧
          is_midnight dt = true) ∧
      (infer_and_cast_column forced col).1 =
        .date ((col.map (fun c => c.bind to_datetime)).map
          (fun o => some (match o with | some dt => date_str dt | none => "NaT")))) ∧
    ((col.map (fun c => c.bind to_datetime)).all
        (fun o => (o.map is_midnight).getD false) = false →
      (infer_and_cast_column forced col).1 =
        .date ((col.map (fun c => c.bind to_datetime)).map
          (fun o => o.map timestamp_str))) := by
  by_cases hall : (col.map (fun c => c.bind to_datetime)).all
      (fun o => (o.map is_midnight).getD false) = true
  · have hred : infer_and_cast_column forced col =
        (.date ((col.map (fun c => c.bind to_datetime)).map
          (fun o => some (match o with | some dt => date_str dt | none => "NaT"))),
          true) := by
      simp only [infer_and_cast_column, hatt, if_true, hsome, hall]
    refine ⟨by rw [hred], by rw [hred]; rfl, fun _ => ⟨?_, by rw [hred]⟩,
      fun hfalse => absurd hall (by simp [hfalse])⟩
    intro j hj
    have hjm : j < (col.map (fun c => c.bind to_datetime)).length := by
      simpa using hj
    have hmem : ((col.map (fun c => c.bind to_datetime)).getD j none) ∈
        col.map (fun c => c.bind to_datetime) := by
      rw [List.getD_eq_getElem _ _ hjm]
      exact List.getElem_mem hjm
    have hpred := List.all_eq_true.mp hall _ hmem
    have hval : (col.map (fun c => c.bind to_datetime)).getD j none =
        (col.getD j none).bind to_datetime := by
      rw [List.getD_eq_getElem _ _ hjm, List.getElem_map,
        List.getD_eq_getElem _ _ hj]
    rw [hval] at hpred
    cases ho : (col.getD j none).bind to_datetime with
    | none => rw [ho] at hpred; simp at hpred
    | some dt =>
      rw [ho] at hpred
      exact ⟨dt, rfl, by simpa using hpred⟩
  · have hall2 : (col.map (fun c => c.bind to_datetime)).all
        (fun o => (o.map is_midnight).getD false) = false := by
      simpa using hall
    have hred : infer_and_cast_column forced col =
        (.date ((col.map (fun c => c.bind to_datetime)).map
          (fun o => o.map timestamp_str)), true) := by
      simp only [infer_and_cast_column, hatt, if_true, hsome, hall2]
      simp
    exact ⟨by rw [hred], by rw [hred]; rfl,
      fun htrue => absurd htrue hall, fun _ => by rw [hred]⟩

/-- C1 witness: the amended theorem applied to the specification scenario
column, whose null puts it on the full-timestamp branch. -/
theorem infer_date_column_spec_witness :
    (infer_and_cast_column false
      [some "2023-01-01", some "2023-02-01", some "2023-03-01", none]).2 = true ∧
    (infer_and_cast_column false
      [some "2023-01-01", some "2023-02-01", some "2023-03-01", none]).1.dtypeTag
        = "date" ∧
    ((([some "2023-01-01", some "2023-02-01", some "2023-03-01", none] :
          List Cell).map (fun c => c.bind to_datetime)).all
        (fun o => (o.map is_midnight).getD false) = true →
      (∀ j, j < ([some "2023-01-01", some "2023-02-01", some "2023-03-01", none] :
          List Cell).length →
        ∃ dt, (([some "2023-01-01", some "2023-02-01", some "2023-03-01", none] :
            List Cell).getD j none).bind to_datetime = some dt ∧
          is_midnight dt = true) ∧
      (infer_and_cast_column false
        [some "2023-01-01", some "2023-02-01", some "2023-03-01", none]).1 =
        .date ((([some "2023-01-01", some "2023-02-01", some "2023-03-01", none] :
            List Cell).map (fun c => c.bind to_datetime)).map
          (fun o => some (match o with | some dt => date_str dt | none => "NaT")))) ∧
    ((([some "2023-01-01", some "2023-02-01", some "2023-03-01", none] :
          List Cell).map (fun c => c.bind to_datetime)).all
        (fun o => (o.map is_midnight).getD false) = false →
      (infer_and_cast_column false
        [some "2023-01-01", some "2023-02-01", some "2023-03-01", none]).1 =
        .date ((([some "2023-01-01", some "2023-02-01", some "2023-03-01", none] :
            List Cell).map (fun c => c.bind to_datetime)).map
          (fun o => o.map timestamp_str))) :=
  infer_date_column_spec false
    [some "2023-01-01", some "2023-02-01", some "2023-03-01", none]
    (by decide) (by decide)

/-- C6 counterexample: on the names ["a", "a", "a_1"] the deduplication
suffix produced for the second "a" collides with the third name, so the
output is not pairwise unique and a second application changes it. -/
theorem standardize_names_collision :
    standardize_column_names true ["a", "a", "a_1"] = ["a", "a_1", "a_1"] ∧
    ¬ (standardize_column_names true ["a", "a", "a_1"]).Nodup ∧
    standardize_column_names true
        (standardize_column_names true ["a", "a", "a_1"]) ≠
      standardize_column_names true ["a", "a", "a_1"] := by
  exact ⟨by decide, by decide, by decide⟩

/-- C6 amended: whenever the per-name normalized forms of the input names
are pairwise distinct, standardization returns exactly those normalized
names, its output is pairwise unique, and it is idempotent; with colliding
normalized names a deduplication suffix can collide with a later name, and
then neither uniqueness nor idempotence holds. -/
theorem standardize_names_spec (lb : Bool) (cols : List String)
    (h : (cols.map (normalize_name lb)).Nodup) :
    standardize_column_names lb cols = cols.map (normalize_name lb) ∧
    (standardize_column_names lb cols).Nodup ∧
    standardize_column_names lb (standardize_column_names lb cols) =
      standardize_column_names lb cols := by
  have h1 : standardize_column_names lb cols = cols.map (normalize_name lb) :=
    standardize_go_all_fresh lb cols [] h (fun b _ => rfl)
  have hmapmap : (cols.map (normalize_name lb)).map (normalize_name lb) =
      cols.map (normalize_name lb) := by
    rw [List.map_map]
    exact List.map_congr_left (fun c _ => normalize_name_idem lb c)
  have h2 : ((cols.map (normalize_name lb)).map (normalize_name lb)).Nodup := by
    rw [hmapmap]
    exact h
  refine ⟨h1, by rw [h1]; exact h, ?_⟩
  rw [h1]
  have h3 : standardize_column_names lb (cols.map (normalize_name lb)) =
      (cols.map (normalize_name lb)).map (normalize_name lb) :=
    standardize_go_all_fresh lb _ [] h2 (fun b _ => rfl)
  rw [h3, hmapmap]

/-- C6 witness: the amended theorem at three names that normalize to
distinct forms. -/
theorem standardize_names_spec_witness :
    standardize_column_names true ["First Name", " last  name ", ""] =
      ["First Name", " last  name ", ""].map (normalize_name true) ∧
    (standardize_column_names true ["First Name", " last  name ", ""]).Nodup ∧
    standardize_column_names true
        (standardize_column_names true ["First Name", " last  name ", ""]) =
      standardize_column_names true ["First Name", " last  name ", ""] :=
  standardize_names_spec true ["First Name", " last  name ", ""] (by decide)

/-- C5 counterexample: on the text column ["1", null] every non-null value
converts (100 percent, certainly at least 90 percent), yet the code leaves
the column categorical, because the source divides by the total number of
cells, counts the null as a failed conversion, and requires the ratio to be
strictly greater than 0.9. -/
theorem numeric_ratio_boundary_not_cast :
    9 * (([some "1", none] : List Cell).filterMap id).length ≤
      10 * (([some "1", none] : List Cell).filterMap id).countP
        (fun s => (to_numeric s).isSome) ∧
    (infer_and_cast_column false [some "1", none]).1.dtypeTag = "categorical" := by
  exact ⟨by decide, by decide⟩

/-- C5 amended: for a text column that does not resolve as date, the column
becomes numeric if and only if strictly more than 90 percent of all its
cells (nulls counting as failed conversions) convert under the permissive
numeric parser; when it does, every failed conversion becomes null, and
otherwise the column stays categorical. -/
theorem numeric_inference_spec (forced : Bool) (col : List Cell)
    (hfall : should_attempt_date forced col = false ∨
      (col.map (fun c => c.bind to_datetime)).any Option.isSome = false) :
    ((infer_and_cast_column forced col).1.dtypeTag = "numeric" ↔
      9 * col.length < 10 * col.countP (fun c => (c.bind to_numeric).isSome)) ∧
    (infer_and_cast_column forced col).2 = false ∧
    (9 * col.length < 10 * col.countP (fun c => (c.bind to_numeric).isSome) →
      (infer_and_cast_column forced col).1 =
        .numeric (col.map (fun c => c.bind to_numeric))) ∧
    (¬ (9 * col.length < 10 * col.countP (fun c => (c.bind to_numeric).isSome)) →
      (infer_and_cast_column forced col).1 = .categorical col) := by
  have hcount : (col.map (fun c => c.bind to_numeric)).countP Option.isSome =
      col.countP (fun c => (c.bind to_numeric).isSome) := by
    rw [List.countP_map]
    rfl
  have hred : infer_and_cast_column forced col = (numeric_or_categorical col, false) := by
    rcases hfall with h | h
    · simp only [infer_and_cast_column, h]
      simp
    · by_cases hatt : should_attempt_date forced col = true
      · simp only [infer_and_cast_column, hatt, if_true, h]
        simp
      · have h2 : should_attempt_date forced col = false := by simpa using hatt
        simp only [infer_and_cast_column, h2]
        simp
  rw [hred]
  by_cases hth : 9 * col.length < 10 * col.countP (fun c => (c.bind to_numeric).isSome)
  · have hnum : numeric_or_categorical col =
        .numeric (col.map (fun c => c.bind to_numeric)) := by
      unfold numeric_or_categorical
      rw [if_pos (by rw [hcount]; exact hth)]
    rw [hnum]
    exact ⟨by simp [InferredColumn.dtypeTag, hth], rfl, fun _ => rfl,
      fun hc => absurd hth hc⟩
  · have hcat : numeric_or_categorical col = .categorical col := by
      unfold numeric_or_categorical
      rw [if_neg (by rw [hcount]; exact hth)]
    rw [hcat]
    refine ⟨?_, rfl, fun hc => absurd hc hth, fun _ => rfl⟩
    constructor
    · intro hdt
      exact absurd hdt (by simp [InferredColumn.dtypeTag])
    · intro hc
      exact absurd hc hth

/-- C5 witness: the amended theorem applied to the column ["1", null],
which stays categorical because only half of all its cells convert. -/
theorem numeric_inference_spec_witness :
    ((infer_and_cast_column false [some "1", none]).1.dtypeTag = "numeric" ↔
      9 * ([some "1", none] : List Cell).length <
        10 * ([some "1", none] : List Cell).countP
          (fun c => (c.bind to_numeric).isSome)) ∧
    (infer_and_cast_column false [some "1", none]).2 = false ∧
    (9 * ([some "1", none] : List Cell).length <
        10 * ([some "1", none] : List Cell).countP
          (fun c => (c.bind to_numeric).isSome) →
      (infer_and_cast_column false [some "1", none]).1 =
        .numeric (([some "1", none] : List Cell).map (fun c => c.bind to_numeric))) ∧
    (¬ (9 * ([some "1", none] : List Cell).length <
        10 * ([some "1", none] : List Cell).countP
          (fun c => (c.bind to_numeric).isSome)) →
      (infer_and_cast_column false [some "1", none]).1 =
        .categorical [some "1", none]) :=
  numeric_inference_spec false [some "1", none] (Or.inl (by decide))

/-- C3 counterexample: joining a two-row table with itself on a key column
holding the same value twice produces four rows under join_type inner,
exceeding min(2, 2) = 2, because every left occurrence matches every right
occurrence. -/
theorem inner_join_exceeds_min_rows :
    ((merge_on_column_join ⟨["k"], [[some "a"], [some "a"]]⟩
      ⟨["k"], [[some "a"], [some "a"]]⟩ "k" "inner" true).1.map
        (fun m => m.rows.length)).toOption = some 4 ∧
    ¬ (4 ≤ min 2 2) := by
  exact ⟨by decide, by decide⟩

/-- C3 amended: when merge_on_column succeeds, the outer join has at least
max(rows of either side) rows unconditionally; the inner join has at most
min(rows of either side) rows provided the join column values are unique
within each table (duplicate keys fan out multiplicatively and can exceed
the minimum) and no conflicting column renamed with the new_ lead collides
with the join column name. -/
theorem merge_on_column_row_bounds (A B : DataFrame) (key : String)
    (px : Bool) :
    (∀ M, (merge_on_column_join A B key "inner" px).1 = .ok M →
      (∀ c ∈ B.header, ¬ ("new_" ++ c = key)) →
      (column_values A key).Nodup → (column_values B key).Nodup →
      M.rows.length ≤ min A.rows.length B.rows.length) ∧
    (∀ M, (merge_on_column_join A B key "outer" px).1 = .ok M →
      max A.rows.length B.rows.length ≤ M.rows.length) := by
  constructor
  · intro M hok hsafe hLnd hRnd
    obtain ⟨h1, h2, _, hM⟩ := merge_ok_shape A B key "inner" px M hok
    have hkeyA : key ∈ A.header := (contains_iff _ _).mp h1
    have hkeyB : key ∈ B.header := (contains_iff _ _).mp h2
    set NR := (if px && !(((B.header.filter (fun c => A.header.contains c)).filter
        (fun c => !(c == key))).isEmpty) then
      DataFrame.mk (B.header.map (fun c =>
        if ((B.header.filter (fun c2 => A.header.contains c2)).filter
            (fun c2 => !(c2 == key))).contains c then "new_" ++ c else c))
        B.rows
    else B) with hNR
    have hvals : column_values NR key = column_values B key := by
      rw [hNR]
      by_cases hcond : (px && !(((B.header.filter
          (fun c => A.header.contains c)).filter
          (fun c => !(c == key))).isEmpty)) = true
      · rw [if_pos hcond]
        refine column_values_map_header B key _ ?_
        intro a ha
        by_cases hc : ((B.header.filter (fun c2 => A.header.contains c2)).filter
            (fun c2 => !(c2 == key))).contains a = true
        · rw [if_pos hc]
          constructor
          · intro he
            exact absurd he (hsafe a ha)
          · intro he
            exfalso
            have hmem := (contains_iff _ _).mp hc
            have := List.of_mem_filter hmem
            rw [he] at this
            simp at this
        · rw [if_neg hc]
      · rw [if_neg hcond]
    rw [hM, pd_merge_length, hvals]
    have hlen1 : (column_values A key).length = A.rows.length :=
      column_values_length A key hkeyA
    have hlen2 : (column_values B key).length = B.rows.length :=
      column_values_length B key hkeyB
    have := merge_pairs_inner_le (column_values A key) (column_values B key)
      hLnd hRnd
    rw [hlen1, hlen2] at this
    exact this
  · intro M hok
    obtain ⟨h1, h2, _, hM⟩ := merge_ok_shape A B key "outer" px M hok
    have hkeyA : key ∈ A.header := (contains_iff _ _).mp h1
    have hkeyB : key ∈ B.header := (contains_iff _ _).mp h2
    set NR := (if px && !(((B.header.filter (fun c => A.header.contains c)).filter
        (fun c => !(c == key))).isEmpty) then
      DataFrame.mk (B.header.map (fun c =>
        if ((B.header.filter (fun c2 => A.header.contains c2)).filter
            (fun c2 => !(c2 == key))).contains c then "new_" ++ c else c))
        B.rows
    else B) with hNR
    have hkeyNR : key ∈ NR.header := by
      rw [hNR]
      by_cases hcond : (px && !(((B.header.filter
          (fun c => A.header.contains c)).filter
          (fun c => !(c == key))).isEmpty)) = true
      · rw [if_pos hcond]
        show key ∈ B.header.map _
        refine List.mem_map.mpr ⟨key, hkeyB, ?_⟩
        have hc : ((B.header.filter (fun c2 => A.header.contains c2)).filter
            (fun c2 => !(c2 == key))).contains key = false := by
          rw [Bool.eq_false_iff]
          intro hc
          have hmem := (contains_iff _ _).mp hc
          have := List.of_mem_filter hmem
          simp at this
        rw [if_neg (by simp [hc])]
      · rw [if_neg hcond]
        exact hkeyB
    have hrowsNR : NR.rows = B.rows := by
      rw [hNR]
      by_cases hcond : (px && !(((B.header.filter
          (fun c => A.header.contains c)).filter
          (fun c => !(c == key))).isEmpty)) = true
      · rw [if_pos hcond]
      · rw [if_neg hcond]
    rw [hM, pd_merge_length]
    have hlen1 : (column_values A key).length = A.rows.length :=
      column_values_length A key hkeyA
    have hlen2 : (column_values NR key).length = B.rows.length := by
      rw [column_values_length NR key hkeyNR, hrowsNR]
    have := merge_pairs_outer_ge (column_values A key) (column_values NR key)
    rw [hlen1, hlen2] at this
    exact this

/-- C3 witness: the bounds at two single-row frames joined on their shared
key column, with 1 ≤ min and max ≤ rows both discharged concretely. -/
theorem merge_on_column_row_bounds_witness :
    (∀ M, (merge_on_column_join ⟨["k"], [[some "a"]]⟩
        ⟨["k"], [[some "a"]]⟩ "k" "inner" true).1 = .ok M →
      (∀ c ∈ (DataFrame.mk ["k"] [[some "a"]]).header, ¬ ("new_" ++ c = "k")) →
      (column_values ⟨["k"], [[some "a"]]⟩ "k").Nodup →
      (column_values ⟨["k"], [[some "a"]]⟩ "k").Nodup →
      M.rows.length ≤ min (DataFrame.mk ["k"] [[some "a"]]).rows.length
        (DataFrame.mk ["k"] [[some "a"]]).rows.length) ∧
    (∀ M, (merge_on_column_join ⟨["k"], [[some "a"]]⟩
        ⟨["k"], [[some "a"]]⟩ "k" "outer" true).1 = .ok M →
      max (DataFrame.mk ["k"] [[some "a"]]).rows.length
        (DataFrame.mk ["k"] [[some "a"]]).rows.length ≤ M.rows.length) :=
  merge_on_column_row_bounds ⟨["k"], [[some "a"]]⟩ ⟨["k"], [[some "a"]]⟩
    "k" true

/-- C4 counterexample: append_below_merge on the frames with columns
id,name and id,age adds the missing column, filled with nulls, to each
input frame in place, so both inputs differ from their pre-call state. -/
theorem append_below_mutates_inputs :
    (append_below_merge ⟨["id", "name"], [[some "1", some "x"]]⟩
      ⟨["id", "age"], [[some "2", some "3"]]⟩).2.1 ≠
      ⟨["id", "name"], [[some "1", some "x"]]⟩ ∧
    (append_below_merge ⟨["id", "name"], [[some "1", some "x"]]⟩
      ⟨["id", "age"], [[some "2", some "3"]]⟩).2.2 ≠
      ⟨["id", "age"], [[some "2", some "3"]]⟩ := by
  exact ⟨by decide, by decide⟩

/-- C4 amended: merge_on_column_join never mutates its inputs, and
append_below_merge leaves both inputs unchanged exactly in the absence of
missing columns: when each header is covered by the other, neither input is
touched; otherwise the source appends each missing column, filled with
nulls, to the corresponding input. -/
theorem merge_inputs_mutation_spec :
    (∀ A B : DataFrame, ∀ key jt : String, ∀ px : Bool,
      (merge_on_column_join A B key jt px).2 = (A, B)) ∧
    (∀ A B : DataFrame,
      col_diff A.header B.header = [] → col_diff B.header A.header = [] →
      (append_below_merge A B).2.1 = A ∧ (append_below_merge A B).2.2 = B) ∧
    (∀ A B : DataFrame,
      (append_below_merge A B).2.1 =
        add_missing_columns A (col_diff B.header A.header) ∧
      (append_below_merge A B).2.2 =
        add_missing_columns B (col_diff A.header B.header)) := by
  refine ⟨fun A B key jt px => rfl, fun A B h1 h2 => ?_, fun A B => ⟨rfl, rfl⟩⟩
  have hex : (append_below_merge A B).2.1 =
      add_missing_columns A (col_diff B.header A.header) := rfl
  have hnew : (append_below_merge A B).2.2 =
      add_missing_columns B (col_diff A.header B.header) := rfl
  rw [hex, hnew, h1, h2, add_missing_columns_nil, add_missing_columns_nil]
  exact ⟨rfl, rfl⟩

/-- C4 witness: the amended theorem at two one-column frames sharing the
header, which append_below_merge then leaves unmutated, and at a join that
returns its inputs unchanged. -/
theorem merge_inputs_mutation_spec_witness :
    (merge_on_column_join ⟨["id"], [[some "1"]]⟩ ⟨["id"], [[some "2"]]⟩
      "id" "outer" true).2 = (⟨["id"], [[some "1"]]⟩, ⟨["id"], [[some "2"]]⟩) ∧
    (append_below_merge ⟨["id"], [[some "1"]]⟩ ⟨["id"], [[some "2"]]⟩).2.1 =
      ⟨["id"], [[some "1"]]⟩ ∧
    (append_below_merge ⟨["id"], [[some "1"]]⟩ ⟨["id"], [[some "2"]]⟩).2.2 =
      ⟨["id"], [[some "2"]]⟩ :=
  ⟨merge_inputs_mutation_spec.1 ⟨["id"], [[some "1"]]⟩ ⟨["id"], [[some "2"]]⟩
      "id" "outer" true,
    merge_inputs_mutation_spec.2.1 ⟨["id"], [[some "1"]]⟩ ⟨["id"], [[some "2"]]⟩
      (by decide) (by decide)⟩

/-- C7: a merge_on_column join fails with a MergeError message whenever the
join column is absent from either input frame, and perform_merge_operation
fails with a MergeError message on an unknown strategy name; in both cases
the Except result carries no table, so no partial merge is returned as
success. -/
theorem merge_error_spec :
    (∀ A B : DataFrame, ∀ key jt : String, ∀ px : Bool,
      (key ∉ A.header ∨ key ∉ B.header) →
      ∃ msg, (merge_on_column_join A B key jt px).1 = .error msg) ∧
    (∀ A B : DataFrame, ∀ strat : String, ∀ mc : Option String,
      ∀ jt : String, ∀ px : Bool, strat ∉ known_strategies →
      ∃ msg, perform_merge_operation A B strat mc jt px = .error msg) := by
  constructor
  · intro A B key jt px h
    by_cases hA : A.header.contains key = true
    · have hkeyB : key ∉ B.header := by
        rcases h with h | h
        · exact absurd ((contains_iff _ _).mp hA) h
        · exact h
      have hB : B.header.contains key = false := contains_eq_false _ _ hkeyB
      refine ⟨"Merge column " ++ key ++ " not found in new dataset", ?_⟩
      show (if !A.header.contains key then _ else _) = _
      rw [hA, hB]
      rfl
    · have hA2 : A.header.contains key = false := by
        simpa using hA
      refine ⟨"Merge column " ++ key ++ " not found in existing dataset", ?_⟩
      show (if !A.header.contains key then _ else _) = _
      rw [hA2]
      rfl
  · intro A B strat mc jt px h
    have h1 : (strat == "append_below") = false := by
      have : ¬ strat = "append_below" := fun he => h (by rw [he]; decide)
      simpa using this
    have h2 : (strat == "merge_on_column") = false := by
      have : ¬ strat = "merge_on_column" := fun he => h (by rw [he]; decide)
      simpa using this
    have h3 : (strat == "keep_separate") = false := by
      have : ¬ strat = "keep_separate" := fun he => h (by rw [he]; decide)
      simpa using this
    refine ⟨"Unknown merge strategy: " ++ strat, ?_⟩
    show (if strat == "append_below" then _ else _) = _
    rw [h1, h2, h3]
    rfl

/-- C7 witness: the join error at a frame lacking the key column, and the
strategy error at the name bogus. -/
theorem merge_error_spec_witness :
    (∃ msg, (merge_on_column_join ⟨["id"], [[some "1"]]⟩ ⟨["k"], [[some "2"]]⟩
      "k" "outer" true).1 = .error msg) ∧
    (∃ msg, perform_merge_operation ⟨["id"], [[some "1"]]⟩ ⟨["k"], [[some "2"]]⟩
      "bogus" none "outer" true = .error msg) :=
  ⟨merge_error_spec.1 ⟨["id"], [[some "1"]]⟩ ⟨["k"], [[some "2"]]⟩ "k" "outer"
      true (Or.inl (by decide)),
    merge_error_spec.2 ⟨["id"], [[some "1"]]⟩ ⟨["k"], [[some "2"]]⟩ "bogus"
      none "outer" true (by decide)⟩

/-- C8: append_below on two well-formed frames produces a frame whose
column list is the first header followed by the columns only in the second
(so the column set is the union of the two), whose row count is the sum of
the two row counts, and in which a column missing from one side is null on
every row contributed by that side. -/
theorem append_below_spec (A B : DataFrame) (hwa : A.WF) (hwb : B.WF) :
    (append_below_merge A B).1.header =
      A.header ++ col_diff B.header A.header ∧
    (∀ c, c ∈ (append_below_merge A B).1.header ↔
      (c ∈ A.header ∨ c ∈ B.header)) ∧
    (append_below_merge A B).1.rows.length = A.rows.length + B.rows.length ∧
    (∀ c, c ∈ A.header → c ∉ B.header → ∀ j, j < B.rows.length →
      (append_below_merge A B).1.cell (A.rows.length + j) c = none) ∧
    (∀ c, c ∈ B.header → c ∉ A.header → ∀ i, i < A.rows.length →
      (append_below_merge A B).1.cell i c = none) := by
  have hnil : col_diff (B.header ++ col_diff A.header B.header)
      (A.header ++ col_diff B.header A.header) = [] :=
    col_diff_append_nil A.header B.header
  have hhdr0 : (append_below_merge A B).1.header =
      (A.header ++ col_diff B.header A.header) ++
        col_diff (B.header ++ col_diff A.header B.header)
          (A.header ++ col_diff B.header A.header) := rfl
  have hhdr : (append_below_merge A B).1.header =
      A.header ++ col_diff B.header A.header := by
    rw [hhdr0, hnil, List.append_nil]
  have hrows : (append_below_merge A B).1.rows =
      ((A.rows.map (fun r =>
          r ++ List.replicate (col_diff B.header A.header).length none)).map
        (reindex_row (A.header ++ col_diff B.header A.header)
          ((A.header ++ col_diff B.header A.header) ++
            col_diff (B.header ++ col_diff A.header B.header)
              (A.header ++ col_diff B.header A.header)))) ++
      ((B.rows.map (fun r =>
          r ++ List.replicate (col_diff A.header B.header).length none)).map
        (reindex_row (B.header ++ col_diff A.header B.header)
          ((A.header ++ col_diff B.header A.header) ++
            col_diff (B.header ++ col_diff A.header B.header)
              (A.header ++ col_diff B.header A.header)))) := rfl
  refine ⟨hhdr, ?_, ?_, ?_, ?_⟩
  · intro c
    rw [hhdr]
    constructor
    · intro h
      rcases List.mem_append.mp h with hm | hm
      · exact Or.inl hm
      · exact Or.inr (List.mem_filter.mp hm).1
    · intro h
      rcases h with hm | hm
      · exact List.mem_append.mpr (Or.inl hm)
      · by_cases hin : c ∈ A.header
        · exact List.mem_append.mpr (Or.inl hin)
        · refine List.mem_append.mpr (Or.inr ?_)
          exact List.mem_filter.mpr ⟨hm, by simpa using hin⟩
  · rw [hrows]
    simp
  · intro c hcA hcB j hj
    obtain ⟨k, hk⟩ := colIndex_mem_some A.header c hcA
    have hkAll : colIndex
        (A.header ++ col_diff B.header A.header) c = some k := by
      rw [colIndex_append_of_mem _ _ _ hcA, hk]
    show (match colIndex (append_below_merge A B).1.header c with
      | some i => ((append_below_merge A B).1.rows.getD (A.rows.length + j) []).getD i none
      | none => none) = none
    rw [hhdr, hkAll]
    rw [hrows]
    have hlenA : (A.rows.map (fun r =>
        r ++ List.replicate (col_diff B.header A.header).length none)).length =
        A.rows.length := List.length_map _ _
    have hmaplen : ((A.rows.map (fun r =>
        r ++ List.replicate (col_diff B.header A.header).length none)).map
        (reindex_row (A.header ++ col_diff B.header A.header)
          ((A.header ++ col_diff B.header A.header) ++
            col_diff (B.header ++ col_diff A.header B.header)
              (A.header ++ col_diff B.header A.header)))).length =
        A.rows.length := by
      rw [List.length_map, hlenA]
    rw [show A.rows.length + j = ((A.rows.map (fun r =>
        r ++ List.replicate (col_diff B.header A.header).length none)).map
        (reindex_row (A.header ++ col_diff B.header A.header)
          ((A.header ++ col_diff B.header A.header) ++
            col_diff (B.header ++ col_diff A.header B.header)
              (A.header ++ col_diff B.header A.header)))).length + j from by
      rw [hmaplen]]
    rw [getD_append_add]
    have hjb : j < (B.rows.map (fun r =>
        r ++ List.replicate (col_diff A.header B.header).length none)).length := by
      simpa using hj
    rw [getD_map_of_lt _ _ _ hjb _ [], getD_map_of_lt _ _ _ hj _ []]
    rw [hnil, List.append_nil]
    show (reindex_row (B.header ++ col_diff A.header B.header)
        (A.header ++ col_diff B.header A.header)
        (B.rows.getD j [] ++
          List.replicate (col_diff A.header B.header).length none)).getD k none =
      none
    rw [reindex_getD_eval _ _ _ c k hkAll]
    have hmemd1 : c ∈ col_diff A.header B.header :=
      List.mem_filter.mpr ⟨hcA, by simpa using hcB⟩
    obtain ⟨k2, hk2⟩ := colIndex_mem_some _ c hmemd1
    rw [colIndex_append_of_not_mem _ _ _ hcB, hk2]
    show ((B.rows.getD j [] ++
      List.replicate (col_diff A.header B.header).length none).getD
        (k2 + B.header.length) none) = none
    have hrowlen : (B.rows.getD j []).length = B.header.length := by
      rw [List.getD_eq_getElem _ _ hj]
      exact hwb _ (List.getElem_mem hj)
    have hk2lt : k2 < (col_diff A.header B.header).length :=
      colIndex_lt_length _ _ _ hk2
    exact appended_row_getD_none _ _ _ (by omega) (by omega)
  · intro c hcB hcA i hi
    have hmemd2 : c ∈ col_diff B.header A.header :=
      List.mem_filter.mpr ⟨hcB, by simpa using hcA⟩
    obtain ⟨k2, hk2⟩ := colIndex_mem_some _ c hmemd2
    have hkAll : colIndex (A.header ++ col_diff B.header A.header) c =
        some (k2 + A.header.length) := by
      rw [colIndex_append_of_not_mem _ _ _ hcA, hk2]
      rfl
    show (match colIndex (append_below_merge A B).1.header c with
      | some i2 => ((append_below_merge A B).1.rows.getD i []).getD i2 none
      | none => none) = none
    rw [hhdr, hkAll]
    rw [hrows]
    have hia : i < ((A.rows.map (fun r =>
        r ++ List.replicate (col_diff B.header A.header).length none)).map
        (reindex_row (A.header ++ col_diff B.header A.header)
          ((A.header ++ col_diff B.header A.header) ++
            col_diff (B.header ++ col_diff A.header B.header)
              (A.header ++ col_diff B.header A.header)))).length := by
      simpa using hi
    rw [getD_append_of_lt _ _ _ hia]
    have hia2 : i < (A.rows.map (fun r =>
        r ++ List.replicate (col_diff B.header A.header).length none)).length := by
      simpa using hi
    rw [getD_map_of_lt _ _ _ hia2 _ [], getD_map_of_lt _ _ _ hi _ []]
    rw [hnil, List.append_nil]
    show (reindex_row (A.header ++ col_diff B.header A.header)
        (A.header ++ col_diff B.header A.header)
        (A.rows.getD i [] ++
          List.replicate (col_diff B.header A.header).length none)).getD
        (k2 + A.header.length) none = none
    rw [reindex_getD_eval _ _ _ c (k2 + A.header.length) hkAll]
    rw [hkAll]
    show ((A.rows.getD i [] ++
      List.replicate (col_diff B.header A.header).length none).getD
        (k2 + A.header.length) none) = none
    have hrowlen : (A.rows.getD i []).length = A.header.length := by
      rw [List.getD_eq_getElem _ _ hi]
      exact hwa _ (List.getElem_mem hi)
    have hk2lt : k2 < (col_diff B.header A.header).length :=
      colIndex_lt_length _ _ _ hk2
    exact appended_row_getD_none _ _ _ (by omega) (by omega)

/-- C8 witness: the theorem at the specification scenario frames with
column sets id,name and id,age. -/
theorem append_below_spec_witness :
    (append_below_merge ⟨["id", "name"], [[some "1", some "x"]]⟩
      ⟨["id", "age"], [[some "2", some "3"]]⟩).1.header =
      ["id", "name"] ++ col_diff ["id", "age"] ["id", "name"] ∧
    (∀ c, c ∈ (append_below_merge ⟨["id", "name"], [[some "1", some "x"]]⟩
      ⟨["id", "age"], [[some "2", some "3"]]⟩).1.header ↔
      (c ∈ (["id", "name"] : List String) ∨ c ∈ (["id", "age"] : List String))) ∧
    (append_below_merge ⟨["id", "name"], [[some "1", some "x"]]⟩
      ⟨["id", "age"], [[some "2", some "3"]]⟩).1.rows.length = 1 + 1 ∧
    (∀ c, c ∈ (["id", "name"] : List String) → c ∉ (["id", "age"] : List String) →
      ∀ j, j < 1 →
      (append_below_merge ⟨["id", "name"], [[some "1", some "x"]]⟩
        ⟨["id", "age"], [[some "2", some "3"]]⟩).1.cell (1 + j) c = none) ∧
    (∀ c, c ∈ (["id", "age"] : List String) → c ∉ (["id", "name"] : List String) →
      ∀ i, i < 1 →
      (append_below_merge ⟨["id", "name"], [[some "1", some "x"]]⟩
        ⟨["id", "age"], [[some "2", some "3"]]⟩).1.cell i c = none) :=
  append_below_spec ⟨["id", "name"], [[some "1", some "x"]]⟩
    ⟨["id", "age"], [[some "2", some "3"]]⟩
    (by intro r hr; rw [List.mem_singleton] at hr; subst hr; rfl)
    (by intro r hr; rw [List.mem_singleton] at hr; subst hr; rfl)

/-- C10 witness: the stage at the three-row table whose middle row is the
single null, instantiating the theorem at index 1. -/
theorem noise_stage_removes_all_null_rows_witness :
    (noise_mask [[some "a"], [none], [some "b"]]).getD 1 false = true ∧
    (noise_mask [[some "a"], [none], [some "b"]]).getD 0 false = false ∧
    (noise_row_stage [[some "a"], [none], [some "b"]]).1 =
      ((List.range ([[some "a"], [none], [some "b"]] : List (List Cell)).length).filter
        (fun j => !((noise_mask [[some "a"], [none], [some "b"]]).getD j false))).map
        (fun j => ([[some "a"], [none], [some "b"]] : List (List Cell)).getD j []) ∧
    (noise_row_stage [[some "a"], [none], [some "b"]]).2 =
      (noise_mask [[some "a"], [none], [some "b"]]).countP id :=
  noise_stage_removes_all_null_rows [[some "a"], [none], [some "b"]]
    (by decide) 1 (by decide) (by decide) (by decide)

end DubHacks
